import Mathlib

/-
Verification of the rebar shape cut list renderer
(RebarShapeCutList/RebarShapeCutListfunc.py).

The development shallowly embeds the two core functions of the module,
getRebarShapeSVG and getRebarShapeCutList, over exact rational arithmetic.
Python floats are idealised as rationals; Python round (banker rounding,
half to even) is modelled by pyRound; fallible operations (division by
zero, list indexing, attribute access on a missing attribute) return
Except values.  External collaborators of the module (the FreeCAD geometry
kernel, projection-plane construction, wire filleting, edge sorting, color
resolution and the arc primitive constructor) are kept abstract as fields
of an Externals record, so every theorem holds for all instantiations of them.
-/

/-! ### Python numeric primitives -/

/-- Models the Python builtin round applied to a float: round half to even
(banker rounding), returning an integer. -/
def pyRound (q : ℚ) : ℤ :=
  let f : ℤ := ⌊q⌋
  let r : ℚ := q - (f : ℚ)
  if r < 1/2 then f
  else if 1/2 < r then f + 1
  else if 2 ∣ f then f else f + 1

/-- Models the two argument Python round(x, p): the value x rounded to p
decimal places, half to even. -/
def pyRoundPrec (q : ℚ) (p : ℕ) : ℚ :=
  (pyRound (q * 10 ^ p) : ℚ) / 10 ^ p

/-! ### Decimal rendering of a rounded float, and a decimal parser

The source renders a dimension label with str(round(length, precision))
and then strips trailing zeros and a dangling decimal point.  The value
round(length, precision) is a float equal to m / 10^p for the integer
m = pyRound (length * 10^p); its Python str is the shortest decimal
representation, which for such a value is the exact decimal expansion with
trailing fractional zeros removed, and with a trailing ".0" when the value
is integral.  The functions below produce exactly that character list.
An independent decimal parser is defined so that theorems can state that
the printed label parses back to the rounded value. -/

/-- Little endian base 10 digits of n, with explicit fuel (the fuel makes
the recursion structural, hence kernel computable).  With fuel at least n
this is the full digit list; the empty list for 0. -/
def digitsLE : ℕ → ℕ → List ℕ
  | 0, _ => []
  | _ + 1, 0 => []
  | f + 1, n + 1 => (n + 1) % 10 :: digitsLE f ((n + 1) / 10)

/-- Little endian base 10 digits of n. -/
def natDigits (n : ℕ) : List ℕ := digitsLE n n

/-- The character of a single decimal digit. -/
def dchar (d : ℕ) : Char := Char.ofNat (48 + d)

/-- Decimal character string of a natural number, most significant digit
first. -/
def natDecChars (n : ℕ) : List Char :=
  if n = 0 then ['0'] else (natDigits n).reverse.map dchar

/-- Removes factors of ten that are common to the mantissa and the
exponent: normDec m p is the pair (m2, p2) with m / 10^p = m2 / 10^p2 and
either p2 = 0 or m2 not divisible by 10.  This coincides with the shortest
decimal representation of the value m / 10^p. -/
def normDec : ℕ → ℕ → ℕ × ℕ
  | m, 0 => (m, 0)
  | m, p + 1 => if m % 10 = 0 then normDec (m / 10) p else (m, p + 1)

/-- The fractional digit characters of m / 10^p: exactly p digits, left
padded with zeros. -/
def fracChars (m p : ℕ) : List Char :=
  let ds : List Char := (natDigits (m % 10 ^ p)).reverse.map dchar
  List.replicate (p - ds.length) '0' ++ ds

/-- Models Python str of the nonnegative float m / 10^p (shortest decimal
representation; integral values print with a trailing ".0"). -/
def pyFloatCharsNat (m p : ℕ) : List Char :=
  let m2 := (normDec m p).1
  let p2 := (normDec m p).2
  if p2 = 0 then natDecChars m2 ++ ['.', '0']
  else natDecChars (m2 / 10 ^ p2) ++ '.' :: fracChars m2 p2

/-- Models Python str of the float m / 10^p, m an integer. -/
def pyFloatChars (m : ℤ) (p : ℕ) : List Char :=
  if m < 0 then '-' :: pyFloatCharsNat m.natAbs p else pyFloatCharsNat m.toNat p

/-- Models the Python str.rstrip with a single strip character: removes
every trailing occurrence of c. -/
def rstripC (l : List Char) (c : Char) : List Char :=
  (l.reverse.dropWhile (fun x => x == c)).reverse

/-- Models the label post processing of the source: if the string contains
a period, strip trailing zeros and then a trailing period. -/
def pyStripChars (l : List Char) : List Char :=
  if '.' ∈ l then rstripC (rstripC l '0') '.' else l

/-- The dimension label printed for a straight edge of true length q at
decimal precision p, as produced by
str(round(q, p)).rstrip("0").rstrip(".") in the source. -/
def edgeLengthLabelChars (q : ℚ) (p : ℕ) : List Char :=
  pyStripChars (pyFloatChars (pyRound (q * 10 ^ p)) p)

/-- Parses a nonempty all digit character list as a natural number. -/
def parseNatChars (l : List Char) : Option ℕ :=
  if l ≠ [] ∧ ∀ c ∈ l, c.isDigit = true then
    some (l.foldl (fun a c => 10 * a + (c.toNat - 48)) 0)
  else none

/-- Parses an unsigned decimal character list, with an optional fractional
part after a period. -/
def parseUnsignedChars (l : List Char) : Option ℚ :=
  let ip := l.takeWhile (fun c => c != '.')
  match l.dropWhile (fun c => c != '.') with
  | [] => (parseNatChars ip).map (fun n => (n : ℚ))
  | _ :: fp =>
    match parseNatChars ip, parseNatChars fp with
    | some a, some b => some ((a : ℚ) + (b : ℚ) / 10 ^ fp.length)
    | _, _ => none

/-- Parses a decimal character list, with an optional leading minus
sign. -/
def parseDecChars (l : List Char) : Option ℚ :=
  match l with
  | c :: rest => if c = '-' then (parseUnsignedChars rest).map (fun q => -q) else parseUnsignedChars l
  | [] => parseUnsignedChars l

/-! ### Geometry and the SVG element tree -/

/-- A 3D point or vector (FreeCAD.Vector), with exact rational
coordinates. -/
structure Vec3 where
  x : ℚ
  y : ℚ
  z : ℚ
deriving DecidableEq

/-- A 2D point in the SVG plane (the projection of a 3D point). -/
structure Point2 where
  x : ℚ
  y : ℚ
deriving DecidableEq

/-- The label rotation angle of a dimension text: either the arctangent of
a slope converted to degrees (kept symbolic, since its value is
irrational) or a fixed angle in degrees. -/
inductive Angle where
  | atanDeg (slope : ℚ)
  | deg (q : ℚ)
deriving DecidableEq

/-- The value of an SVG attribute.  Numeric content is kept structured
(instead of formatting it into a string) so that theorems can speak about
the exact numbers the source would print: mm q models the string "{q}mm",
viewBox w h models "0 0 {w} {h}", translate x y models
"translate({x} {y})", scaleTranslate s tx ty models
"scale({s}) translate({tx} {ty})" and rotate a cx cy models
"rotate({a} {cx} {cy})". -/
inductive AttrVal where
  | str (s : String)
  | num (q : ℚ)
  | mm (q : ℚ)
  | viewBox (w h : ℚ)
  | translate (x y : ℚ)
  | scaleTranslate (s : ℚ) (tx ty : ℤ)
  | rotate (a : Angle) (cx cy : ℤ)
deriving DecidableEq

/-- An SVG element tree (xml.etree.ElementTree.Element): a tag, an ordered
attribute list, text content and child elements. -/
inductive SVGElem where
  | elem (tag : String) (attrs : List (String × AttrVal)) (text : String)
      (children : List SVGElem)

/-- The tag of an element. -/
def SVGElem.tag : SVGElem → String
  | SVGElem.elem t _ _ _ => t

/-- The attribute list of an element. -/
def SVGElem.attrs : SVGElem → List (String × AttrVal)
  | SVGElem.elem _ a _ _ => a

/-- The text content of an element. -/
def SVGElem.textOf : SVGElem → String
  | SVGElem.elem _ _ t _ => t

/-- The child list of an element. -/
def SVGElem.children : SVGElem → List SVGElem
  | SVGElem.elem _ _ _ c => c

/-- Models Element.get(key): the value of an attribute, if present. -/
def SVGElem.attr? (e : SVGElem) (k : String) : Option AttrVal :=
  (e.attrs.find? (fun p => p.1 == k)).map Prod.snd

/-- Models Element.set(key, value).  In every call site of the source the
key is not yet present, so appending is equivalent to the dictionary
update performed by ElementTree. -/
def SVGElem.setAttr : SVGElem → String → AttrVal → SVGElem
  | SVGElem.elem t a txt cs, k, v =>
    SVGElem.elem t (a.filter (fun p => p.1 != k) ++ [(k, v)]) txt cs

/-- Models Element.append. -/
def SVGElem.appendChild : SVGElem → SVGElem → SVGElem
  | SVGElem.elem t a txt cs, c => SVGElem.elem t a txt (cs ++ [c])

/-- Models Element.extend. -/
def SVGElem.appendChildren : SVGElem → List SVGElem → SVGElem
  | SVGElem.elem t a txt cs, l => SVGElem.elem t a txt (cs ++ l)

/-! ### The SVG primitive constructors of SVGfunc.py

SVGfunc.py belongs to this repository but is not part of the sources under
verification; per the specification (sections 1, 3 and 6) its constructors
are generic element builders with fixed contracts, modelled here from the
words of the specification. -/

/-- Modelled from the spec: SVGfunc.getSVGRootElement returns a fresh svg
root element. -/
def getSVGRootElement : SVGElem :=
  SVGElem.elem "svg" [("xmlns", AttrVal.str "http://www.w3.org/2000/svg"),
    ("version", AttrVal.str "1.1")] "" []

/-- Modelled from the spec: SVGfunc.getPointSVG renders a point as a
filled circle of the given radius. -/
def getPointSVG (p : Point2) (radius : ℚ) (fill : String) : SVGElem :=
  SVGElem.elem "circle"
    [("cx", AttrVal.num p.x), ("cy", AttrVal.num p.y),
     ("r", AttrVal.num radius), ("fill", AttrVal.str fill)] "" []

/-- Modelled from the spec: SVGfunc.getLineSVG renders a straight line
with the given stroke width and color. -/
def getLineSVG (p1 p2 : Point2) (strokeWidth : ℚ) (color : String) : SVGElem :=
  SVGElem.elem "line"
    [("x1", AttrVal.num p1.x), ("y1", AttrVal.num p1.y),
     ("x2", AttrVal.num p2.x), ("y2", AttrVal.num p2.y),
     ("stroke", AttrVal.str color), ("stroke-width", AttrVal.num strokeWidth)] "" []

/-- Modelled from the spec: SVGfunc.getSVGTextElement renders a text
element with the given position, font family, font size and anchor. -/
def getSVGTextElement (content : String) (x y : ℚ) (fontFamily : String)
    (fontSize : ℚ) (anchor : String := "start") : SVGElem :=
  SVGElem.elem "text"
    [("x", AttrVal.num x), ("y", AttrVal.num y),
     ("font-family", AttrVal.str fontFamily),
     ("font-size", AttrVal.num fontSize),
     ("text-anchor", AttrVal.str anchor)] content []

/-- Modelled from the spec: SVGfunc.getSVGRectangle renders a rectangle
carrying an element id. -/
def getSVGRectangle (x y w h : ℚ) (elementId : String) : SVGElem :=
  SVGElem.elem "rect"
    [("x", AttrVal.num x), ("y", AttrVal.num y),
     ("width", AttrVal.num w), ("height", AttrVal.num h),
     ("id", AttrVal.str elementId)] "" []

/-! ### Bars, edges and external collaborators -/

/-- The geometric kind of a wire edge, as classified by
DraftGeomUtils.geomType in the source. -/
inductive EdgeKind where
  | line
  | circle
  | other
deriving DecidableEq

/-- A wire edge: its kind, the 3D points of its two vertexes
(edge.Vertexes[0].Point and edge.Vertexes[1].Point) and its true length
(edge.Length). -/
structure Edge where
  kind : EdgeKind
  v1 : Vec3
  v2 : Vec3
  length : ℚ
deriving DecidableEq

/-- A rebar object, reduced to the fields the renderer reads: Name, the
mark (the source probes for a Mark or a MarkNumber attribute, collapsed
here into an optional display string), Rounding, Diameter.Value and the
ordered edge list of rebar.Base.Shape.Wires[0]. -/
structure Rebar where
  name : String
  mark : Option String
  rounding : ℚ
  diameter : ℚ
  baseWire : List Edge
deriving DecidableEq

/-- A runtime value passed as a view direction: a FreeCAD.Vector, a
WorkingPlane.Plane (identified with its projection map, the composition of
getProjectionToSVGPlane with the plane) or a Python float, the unsupported
type that the buggy list padding of getRebarShapeCutList produces. -/
inductive ViewDirection where
  | vector (v : Vec3)
  | plane (viewPlane : Vec3 → Point2)
  | pyFloat (q : ℚ)

/-- The view_directions argument of getRebarShapeCutList: either a single
FreeCAD.Vector or a Python list. -/
inductive ViewDirectionsArg where
  | single (v : Vec3)
  | list (l : List ViewDirection)

/-- The Python exceptions that the embedded code can raise. -/
inductive PyError where
  | zeroDivisionError
  | indexError
  | attributeError
  | typeError
deriving DecidableEq

/-- The external collaborators consumed by the module, kept abstract:
getRebarsSpanAxis, getSVGPlaneFromAxis composed with
getProjectionToSVGPlane, DraftGeomUtils.filletWire, Part.__sortEdges__,
getRebarColor, getRoundCornerSVG, and the process wide decimal precision
setting read from the FreeCAD parameter store. -/
structure Externals where
  spanAxis : Rebar → Vec3
  planeFromAxis : Vec3 → Vec3 → Point2
  filletWire : List Edge → ℚ → List Edge
  sortEdges : List Edge → List Edge
  rebarColor : Rebar → String → String
  roundCornerSVG : Edge → ℚ → (Vec3 → Point2) → ℚ → String → SVGElem
  precision : ℕ

/-- The vertex point list of a wire given as an edge list.  A FreeCAD wire
reports each vertex once; listing both endpoints of every edge yields the
same point set (duplicates do not affect the bounding box fold below). -/
def wireVertexes (es : List Edge) : List Vec3 :=
  es.flatMap (fun e => [e.v1, e.v2])

/-- Embeds getVertexesMinMaxXY: folds min and max over the projections of
the vertex list, seeded from the first vertex.  The source indexes
vertex_list[0] unguarded, hence none (an IndexError) on the empty list. -/
def getVertexesMinMaxXY (vertexList : List Vec3) (viewPlane : Vec3 → Point2) :
    Option (ℚ × ℚ × ℚ × ℚ) :=
  match vertexList with
  | [] => none
  | v :: rest =>
    let p := viewPlane v
    some (rest.foldl
      (fun acc w =>
        let q := viewPlane w
        (min q.x acc.1, min q.y acc.2.1, max q.x acc.2.2.1, max q.y acc.2.2.2))
      (p.x, p.y, p.x, p.y))

/-! ### The single shape renderer getRebarShapeSVG -/

/-- The console error text printed for an unsupported view_direction
type. -/
def invalidViewDirectionMsg : String :=
  "Invalid view_direction type. Supported view_direction types: FreeCAD.Vector, WorkingPlane.Plane\n"

/-- Embeds the view plane resolution at the top of getRebarShapeSVG: a
null vector selects the span axis of the rebar, a nonnull vector is turned
into a plane, a plane is used unchanged, and any other value is the error
case (none). -/
def resolveViewPlane (ext : Externals) (rebar : Rebar) :
    ViewDirection → Option (Vec3 → Point2)
  | ViewDirection.vector v =>
    if v = ⟨0, 0, 0⟩ then some (ext.planeFromAxis (ext.spanAxis rebar))
    else some (ext.planeFromAxis v)
  | ViewDirection.plane viewPlane => some viewPlane
  | ViewDirection.pyFloat _ => none

/-- Embeds the scaling factor computation of getRebarShapeSVG (lines 251
to 262 of the source): both factors start as the explicit scale parameter,
a nonzero max_height replaces the vertical factor by a derived one, a
nonzero max_width replaces the horizontal factor, and the final scale is
the minimum of the two.  A zero shape extent on a constrained axis is a
ZeroDivisionError. -/
def computeScale (scale max_height max_width rebar_shape_height
    rebar_shape_width dimension_font_size rebar_stroke_width : ℚ)
    (include_mark : Bool) : Except PyError ℚ := do
  let v_scaling_factor ←
    if max_height ≠ 0 then
      if rebar_shape_height = 0 then Except.error PyError.zeroDivisionError
      else Except.ok ((max_height
        - dimension_font_size * (if include_mark then (4 : ℚ) else 2)
        - 2 * rebar_stroke_width) / rebar_shape_height)
    else Except.ok scale
  let h_scaling_factor ←
    if max_width ≠ 0 then
      if rebar_shape_width = 0 then Except.error PyError.zeroDivisionError
      else Except.ok ((max_width - 2 * dimension_font_size
        - 2 * rebar_stroke_width) / rebar_shape_width)
    else Except.ok scale
  Except.ok (min h_scaling_factor v_scaling_factor)

/-- Embeds the svg_height computation of getRebarShapeSVG (lines 263 to
267). -/
def svgHeightOf (rebar_shape_height scale dimension_font_size
    rebar_stroke_width : ℚ) (include_mark : Bool) : ℚ :=
  rebar_shape_height * scale
    + dimension_font_size * (if include_mark then (4 : ℚ) else 2)
    - 2 * rebar_stroke_width

/-- Embeds the svg_width computation of getRebarShapeSVG (lines 268 to
272). -/
def svgWidthOf (rebar_shape_width scale dimension_font_size
    rebar_stroke_width : ℚ) : ℚ :=
  rebar_shape_width * scale + 2 * dimension_font_size
    - 2 * rebar_stroke_width

/-- Embeds the per edge svg of the edge loop of getRebarShapeSVG: a
straight edge whose projected endpoints round to the same integer point on
both axes renders as a dot, any other straight edge as a line; a circular
edge whose projected endpoints round to the same x or the same y renders
as a line, any other circular edge as the round corner primitive; any
other geometry renders as an empty group. -/
def renderEdgeSVG (ext : Externals) (viewPlane : Vec3 → Point2)
    (filletRadius strokeWidth : ℚ) (color : String) (e : Edge) : SVGElem :=
  match e.kind with
  | EdgeKind.line =>
    let p1 := viewPlane e.v1
    let p2 := viewPlane e.v2
    if pyRound p1.x = pyRound p2.x ∧ pyRound p1.y = pyRound p2.y then
      getPointSVG p1 (2 * strokeWidth) color
    else getLineSVG p1 p2 strokeWidth color
  | EdgeKind.circle =>
    let p1 := viewPlane e.v1
    let p2 := viewPlane e.v2
    if pyRound p1.x = pyRound p2.x ∨ pyRound p1.y = pyRound p2.y then
      getLineSVG p1 p2 strokeWidth color
    else ext.roundCornerSVG e filletRadius viewPlane strokeWidth color
  | EdgeKind.other => SVGElem.elem "g" [] "" []

/-- Embeds the dimension annotation built for a straight edge: the label
text is the true length of the lockstep unfilleted edge se rounded to the
configured precision and stripped, placed at the projected midpoint of the
filleted edge e, offset upward by twice the stroke width, center anchored,
and rotated about the rounded midpoint by the arctangent of the projected
slope (or by -90 degrees when the endpoints round to the same x). -/
def dimSVG (viewPlane : Vec3 → Point2) (strokeWidth : ℚ)
    (fontFamily : String) (fontSize : ℚ) (precision : ℕ) (e se : Edge) :
    SVGElem :=
  let p1 := viewPlane e.v1
  let p2 := viewPlane e.v2
  let midX := (p1.x + p2.x) / 2
  let midY := (p1.y + p2.y) / 2
  let rotation : Angle :=
    if pyRound p2.x ≠ pyRound p1.x then
      Angle.atanDeg ((p2.y - p1.y) / (p2.x - p1.x))
    else Angle.deg (-90)
  (getSVGTextElement (String.mk (edgeLengthLabelChars se.length precision))
      midX (midY - strokeWidth * 2) fontFamily fontSize "middle").setAttr
    "transform" (AttrVal.rotate rotation (pyRound midX) (pyRound midY))

/-- Embeds the edge loop of getRebarShapeSVG (lines 321 to 383): walks the
sorted filleted edges, builds one edge svg per edge and one dimension svg
per straight edge, advancing the cursor into the sorted unfilleted edge
list only on straight edges; indexing past the end of that list is an
IndexError. -/
def edgeLoop (ext : Externals) (viewPlane : Vec3 → Point2)
    (filletRadius strokeWidth : ℚ) (color fontFamily : String)
    (fontSize : ℚ) (precision : ℕ) (straight_edges : List Edge) :
    List Edge → ℕ → Except PyError (List SVGElem × List SVGElem)
  | [], _ => Except.ok ([], [])
  | e :: rest, idx =>
    match e.kind with
    | EdgeKind.line =>
      match straight_edges.get? idx with
      | none => Except.error PyError.indexError
      | some se => do
        let (es, ds) ← edgeLoop ext viewPlane filletRadius strokeWidth color
          fontFamily fontSize precision straight_edges rest (idx + 1)
        Except.ok (renderEdgeSVG ext viewPlane filletRadius strokeWidth color e :: es,
          dimSVG viewPlane strokeWidth fontFamily fontSize precision e se :: ds)
    | EdgeKind.circle => do
      let (es, ds) ← edgeLoop ext viewPlane filletRadius strokeWidth color
        fontFamily fontSize precision straight_edges rest idx
      Except.ok (renderEdgeSVG ext viewPlane filletRadius strokeWidth color e :: es, ds)
    | EdgeKind.other => do
      let (es, ds) ← edgeLoop ext viewPlane filletRadius strokeWidth color
        fontFamily fontSize precision straight_edges rest idx
      Except.ok (renderEdgeSVG ext viewPlane filletRadius strokeWidth color e :: es, ds)

/-- The result of getRebarShapeSVG: the produced element and the error
texts printed to the FreeCAD console. -/
structure RenderResult where
  svg : SVGElem
  consoleErrors : List String

/-- Embeds getRebarShapeSVG.  The steps follow the source in order: view
plane resolution (an unsupported type returns an empty group and prints an
error), filleting, the projected bounding box (IndexError on an empty
vertex list), the scaling factors (ZeroDivisionError on a zero extent of
a constrained axis), canvas size, the translation (ZeroDivisionError when
the final scale is zero), the division of stroke width and font size by
the scale, the optional mark label and the edge loop. -/
def getRebarShapeSVG (ext : Externals) (rebar : Rebar)
    (view_direction : ViewDirection) (include_mark : Bool)
    (rebar_stroke_width : ℚ) (rebar_color_style : String)
    (dimension_font_family : String) (dimension_font_size : ℚ)
    (scale : ℚ) (max_height : ℚ) (max_width : ℚ) :
    Except PyError RenderResult := do
  match resolveViewPlane ext rebar view_direction with
  | none =>
    Except.ok ⟨SVGElem.elem "g" [] "" [], [invalidViewDirectionMsg]⟩
  | some view_plane =>
    let precision := ext.precision
    let rebar_color := ext.rebarColor rebar rebar_color_style
    let basewire := rebar.baseWire
    let fillet_radius := rebar.rounding * rebar.diameter
    let fillet_basewire :=
      if fillet_radius ≠ 0 then ext.filletWire basewire fillet_radius
      else basewire
    match getVertexesMinMaxXY (wireVertexes fillet_basewire) view_plane with
    | none => Except.error PyError.indexError
    | some (min_x, min_y, max_x, max_y) =>
      let rebar_shape_height := max_y - min_y
      let rebar_shape_width := max_x - min_x
      let scale ← computeScale scale max_height max_width rebar_shape_height
        rebar_shape_width dimension_font_size rebar_stroke_width include_mark
      let svg_height := svgHeightOf rebar_shape_height scale
        dimension_font_size rebar_stroke_width include_mark
      let svg_width := svgWidthOf rebar_shape_width scale
        dimension_font_size rebar_stroke_width
      if scale = 0 then Except.error PyError.zeroDivisionError else
      let translate_x := pyRound
        (-(min_x - (dimension_font_size + rebar_stroke_width) / scale))
      let translate_y := pyRound
        (-(min_y - (if include_mark then (3 : ℚ) else 1) * dimension_font_size / scale
          - rebar_stroke_width / scale))
      let rebar_stroke_width := rebar_stroke_width / scale
      let dimension_font_size := dimension_font_size / scale
      let markChildren :=
        if include_mark then
          [getSVGTextElement (rebar.mark.getD "") min_x
            (min_y - 3/2 * dimension_font_size) dimension_font_family
            (3/2 * dimension_font_size)]
        else []
      let edges := ext.sortEdges fillet_basewire
      let straight_edges := ext.sortEdges basewire
      match edgeLoop ext view_plane fillet_radius rebar_stroke_width
        rebar_color dimension_font_family dimension_font_size precision
        straight_edges edges 0 with
      | Except.error e => Except.error e
      | Except.ok (edgeSvgs, dimSvgs) =>
        let rebar_edges_svg := SVGElem.elem "g" [] "" edgeSvgs
        let edge_dimension_svg := SVGElem.elem "g" [] "" dimSvgs
        let rebar_shape_svg := SVGElem.elem "g"
          [("id", AttrVal.str rebar.name),
           ("transform", AttrVal.scaleTranslate scale translate_x translate_y)]
          "" ([rebar_edges_svg, edge_dimension_svg] ++ markChildren)
        let svg := (((getSVGRootElement.appendChild rebar_shape_svg).setAttr
          "width" (AttrVal.mm (pyRound svg_width : ℚ))).setAttr
          "height" (AttrVal.mm (pyRound svg_height : ℚ))).setAttr
          "viewBox" (AttrVal.viewBox (pyRound svg_width : ℚ) (pyRound svg_height : ℚ))
        Except.ok ⟨svg, []⟩

/-! ### The cut list composer getRebarShapeCutList -/

/-- Models the Python expression (k) * FreeCAD.Vector(0, 0, 0) as used as
the argument of list.extend in getRebarShapeCutList (lines 452 to 455 of
the source).  The integer k multiplies the vector (scalar multiplication,
yielding the single vector (0, 0, 0)), it does not replicate a list; the
subsequent list.extend then iterates the vector, appending its three float
components.  The padding therefore appends exactly three Python floats
0.0, whatever the deficit k is. -/
def pyExtendTimesZeroVector (_k : ℕ) : List ViewDirection :=
  [ViewDirection.pyFloat 0, ViewDirection.pyFloat 0, ViewDirection.pyFloat 0]

/-- Embeds the view_directions preprocessing of getRebarShapeCutList
(lines 448 to 455): a single vector is broadcast to one copy per rebar; a
list shorter than the rebar list is extended with the value of
pyExtendTimesZeroVector. -/
def resolveViewDirections (view_directions : ViewDirectionsArg) (n : ℕ) :
    List ViewDirection :=
  match view_directions with
  | ViewDirectionsArg.single v => List.replicate n (ViewDirection.vector v)
  | ViewDirectionsArg.list l =>
    if l.length < n then l ++ pyExtendTimesZeroVector (n - l.length) else l

/-- Finds the child group carrying the given id, modelling
rebar_svg.find("./g[@id=...]"). -/
def findGById (e : SVGElem) (nm : String) : Option SVGElem :=
  e.children.find?
    (fun c => c.tag == "g" && c.attr? "id" == some (AttrVal.str nm))

/-- Embeds the body of the row loop of getRebarShapeCutList for the row
with index i: render the shape (include_mark false, constrained to the row
cell), read back the rendered width and height attributes (reading a
missing attribute is the AttributeError the source hits when the render
returned an empty group), center the shape group in the row cell, add the
row border rectangle, translate the row to its vertical position and add
the optional mark label. -/
def cutRow (ext : Externals) (include_mark : Bool)
    (rebars_stroke_width : ℚ) (rebars_color_style : String)
    (dimension_font_family : String) (dimension_font_size : ℚ)
    (rebar_shape_max_height width row_height : ℚ) (i : ℕ) (rebar : Rebar)
    (vd : ViewDirection) : Except PyError SVGElem := do
  let rres ← getRebarShapeSVG ext rebar vd false rebars_stroke_width
    rebars_color_style dimension_font_family dimension_font_size 1
    rebar_shape_max_height width
  let rebar_svg := rres.svg
  let rebar_shape_svg_width ← match rebar_svg.attr? "width" with
    | some (AttrVal.mm q) => Except.ok q
    | _ => Except.error PyError.attributeError
  let rebar_shape_svg_height ← match rebar_svg.attr? "height" with
    | some (AttrVal.mm q) => Except.ok q
    | _ => Except.error PyError.attributeError
  let inner ← match findGById rebar_svg rebar.name with
    | some g => Except.ok g
    | none => Except.error PyError.typeError
  let rebar_shape_svg := SVGElem.elem "g"
    [("transform", AttrVal.translate ((width - rebar_shape_svg_width) / 2)
      ((rebar_shape_max_height - rebar_shape_svg_height) / 2
        + (if include_mark then 2 * dimension_font_size else 0)))]
    "" [inner]
  let row_border_svg := getSVGRectangle 0 0 width row_height
    ("row_" ++ toString i)
  let markChildren :=
    if include_mark then
      [getSVGTextElement (rebar.mark.getD "") 2 (2 * dimension_font_size)
        dimension_font_family (3/2 * dimension_font_size)]
    else []
  Except.ok (SVGElem.elem "g"
    [("transform", AttrVal.translate 0 ((i : ℚ) * row_height))] ""
    ([row_border_svg, rebar_shape_svg] ++ markChildren))

/-- The row loop of getRebarShapeCutList: one row per rebar, in input
order, with the running index i selecting the view direction. -/
def cutRows (ext : Externals) (include_mark : Bool)
    (rebars_stroke_width : ℚ) (rebars_color_style : String)
    (dimension_font_family : String) (dimension_font_size : ℚ)
    (rebar_shape_max_height width row_height : ℚ)
    (view_directions : List ViewDirection) :
    ℕ → List Rebar → Except PyError (List SVGElem)
  | _, [] => Except.ok []
  | i, rebar :: rest => do
    let vd ← match view_directions.get? i with
      | some v => Except.ok v
      | none => Except.error PyError.indexError
    let row ← cutRow ext include_mark rebars_stroke_width rebars_color_style
      dimension_font_family dimension_font_size rebar_shape_max_height width
      row_height i rebar vd
    let rest_rows ← cutRows ext include_mark rebars_stroke_width
      rebars_color_style dimension_font_family dimension_font_size
      rebar_shape_max_height width row_height view_directions (i + 1) rest
    Except.ok (row :: rest_rows)

/-- Embeds getRebarShapeCutList.  An empty rebar list short circuits to a
minimal svg document of size width by row_height; otherwise the view
directions are resolved, the per row maximum shape height reserves space
for the mark band, the rows are built in input order and the document gets
its width, its height row_height times the number of rebars, and the
matching view box. -/
def getRebarShapeCutList (ext : Externals) (base_rebars_list : List Rebar)
    (view_directions : ViewDirectionsArg) (include_mark : Bool)
    (rebars_stroke_width : ℚ) (rebars_color_style : String)
    (dimension_font_family : String) (dimension_font_size : ℚ)
    (row_height width : ℚ) : Except PyError SVGElem :=
  if base_rebars_list.isEmpty then
    Except.ok (SVGElem.elem "svg"
      [("height", AttrVal.mm row_height), ("width", AttrVal.mm width),
       ("viewBox", AttrVal.viewBox width row_height)] "" [])
  else do
    let vdl := resolveViewDirections view_directions base_rebars_list.length
    let rebar_shape_max_height := row_height
      - (if include_mark then 2 * dimension_font_size else 0)
    let rows ← cutRows ext include_mark rebars_stroke_width
      rebars_color_style dimension_font_family dimension_font_size
      rebar_shape_max_height width row_height vdl 0 base_rebars_list
    Except.ok ((((getSVGRootElement.appendChildren rows).setAttr
      "width" (AttrVal.mm width)).setAttr
      "height" (AttrVal.mm (row_height * base_rebars_list.length))).setAttr
      "viewBox" (AttrVal.viewBox width (row_height * base_rebars_list.length)))

/-! ### Concrete instantiations used by witnesses and counterexamples -/

/-- A concrete view plane: orthographic projection onto the xy plane. -/
def projXY : Vec3 → Point2 := fun v => ⟨v.x, v.y⟩

/-- A concrete instantiation of the external collaborators: the span axis
is the z axis, every axis yields the xy projection plane, filleting and
edge sorting leave the wire unchanged, the color resolution returns the
requested style and the decimal precision is the FreeCAD default 2. -/
def extXY : Externals where
  spanAxis := fun _ => ⟨0, 0, 1⟩
  planeFromAxis := fun _ => projXY
  filletWire := fun w _ => w
  sortEdges := fun es => es
  rebarColor := fun _ style => style
  roundCornerSVG := fun _ _ _ _ _ => SVGElem.elem "path" [] "" []
  precision := 2

/-- A rebar whose single straight segment runs along the x axis: its
projected bounding box on the xy plane has zero height. -/
def barFlat : Rebar :=
  ⟨"BarFlat", some "1", 0, 8, [⟨EdgeKind.line, ⟨0, 0, 0⟩, ⟨10, 0, 0⟩, 10⟩]⟩

/-- A rebar whose single straight segment is diagonal, so both projected
extents are positive; its true length field is 50. -/
def barDiagA : Rebar :=
  ⟨"BarA", some "1", 0, 8, [⟨EdgeKind.line, ⟨0, 0, 0⟩, ⟨10, 10, 0⟩, 50⟩]⟩

/-- A second diagonal rebar with a different name and mark; its true
length field is 33.333. -/
def barDiagB : Rebar :=
  ⟨"BarB", some "2", 0, 8,
    [⟨EdgeKind.line, ⟨0, 0, 0⟩, ⟨10, 10, 0⟩, 33333/1000⟩]⟩

/-- A straight edge whose endpoints project to points that round to the
same integer coordinates on both axes. -/
def edgeDeg : Edge := ⟨EdgeKind.line, ⟨0, 0, 0⟩, ⟨1/5, 0, 0⟩, 1/5⟩

/-- Reads the view box dimensions from the root attributes of an
element. -/
def viewBoxDims (e : SVGElem) : Option (ℚ × ℚ) :=
  match e.attr? "viewBox" with
  | some (AttrVal.viewBox w h) => some (w, h)
  | _ => none

/-- The transform attribute of the first child (the shape group) of a
rendered svg root. -/
def shapeTransformOf (e : SVGElem) : Option AttrVal :=
  e.children.head?.bind (fun g => g.attr? "transform")

/-- The stroke width attribute of the first edge primitive of a rendered
shape (root, then shape group, then edge group, then first edge). -/
def firstEdgeStrokeOf (r : Except PyError RenderResult) : Option AttrVal :=
  match r with
  | Except.ok rr =>
    ((rr.svg.children.head?.bind (fun g => g.children.head?)).bind
      (fun eg => eg.children.head?)).bind (fun l => l.attr? "stroke-width")
  | _ => none

/-! ### Claim theorems -/

/-- C1, evaluation at the failing input: with max_height = 100 supplied,
max_width = 0, explicit scale 1, include_mark true, font size 2, stroke
width 0.35 and a shape of projected extents 10 by 10, the derived vertical
factor is 9.13, yet the code computes the final scale
min(explicit scale, derived factor) = 1: the explicit scale parameter is
not ignored, contradicting the claim and the docstring of the source.
The full renderer accordingly emits the group transform with scale 1. -/
theorem computeScale_explicit_not_ignored_single_constraint :
    computeScale 1 100 0 10 10 2 (7/20) true = Except.ok 1 ∧
    (100 - 2 * (4 : ℚ) - 2 * (7/20)) / 10 = 913/100 ∧
    (1 : ℚ) ≠ 913/100 ∧
    (match getRebarShapeSVG extXY barDiagA (ViewDirection.plane projXY) true
        (7/20) "shape color" "DejaVu Sans" 2 1 100 0 with
      | Except.ok r => shapeTransformOf r.svg
      | _ => none) = some (AttrVal.scaleTranslate 1 2 6) := by
  refine ⟨?_, by norm_num, by norm_num, ?_⟩
  · norm_num [computeScale, Except.bind, bind, min_def]
  · norm_num [getRebarShapeSVG, resolveViewPlane, extXY, barDiagA, projXY,
      wireVertexes, getVertexesMinMaxXY, computeScale, svgHeightOf, svgWidthOf,
      pyRound, edgeLoop, renderEdgeSVG, dimSVG, getPointSVG, getLineSVG,
      getSVGTextElement, getSVGRootElement, SVGElem.setAttr, SVGElem.appendChild,
      SVGElem.attr?, SVGElem.attrs, SVGElem.children, shapeTransformOf,
      edgeLengthLabelChars, pyStripChars, pyFloatChars, pyFloatCharsNat,
      normDec, natDecChars, natDigits, digitsLE, fracChars, dchar, rstripC,
      Except.bind, bind, pure, Except.pure, min_def, List.filter, List.find?,
      Option.or, Option.map, Option.bind, List.head?]
    simp

/-- C2, evaluation at the failing input: padding a one element view
direction list against two rebars appends the three float components of
the scalar product (k) * Vector(0, 0, 0) instead of k zero vectors, so the
entry for the second rebar is a Python float and not the zero vector; the
cut list build then crashes with an AttributeError (None.rstrip) after the
invalid view direction makes the shape render return an empty group with
no width attribute. -/
theorem resolveViewDirections_padding_is_floats :
    resolveViewDirections
        (ViewDirectionsArg.list [ViewDirection.vector ⟨0, 0, 1⟩]) 2 =
      [ViewDirection.vector ⟨0, 0, 1⟩, ViewDirection.pyFloat 0,
       ViewDirection.pyFloat 0, ViewDirection.pyFloat 0] ∧
    (resolveViewDirections
        (ViewDirectionsArg.list [ViewDirection.vector ⟨0, 0, 1⟩]) 2).get? 1 ≠
      some (ViewDirection.vector ⟨0, 0, 0⟩) ∧
    getRebarShapeCutList extXY [barDiagA, barDiagB]
      (ViewDirectionsArg.list [ViewDirection.vector ⟨0, 0, 1⟩]) true (7/20)
      "shape color" "DejaVu Sans" 2 40 60 =
      Except.error PyError.attributeError := by
  refine ⟨by simp [resolveViewDirections, pyExtendTimesZeroVector],
    by simp [resolveViewDirections, pyExtendTimesZeroVector], ?_⟩
  norm_num [getRebarShapeCutList, cutRows, cutRow, resolveViewDirections,
    pyExtendTimesZeroVector, getRebarShapeSVG, resolveViewPlane, extXY,
    barDiagA, barDiagB, projXY, wireVertexes, getVertexesMinMaxXY,
    computeScale, svgHeightOf, svgWidthOf, pyRound, edgeLoop, renderEdgeSVG,
    dimSVG, getPointSVG, getLineSVG, getSVGTextElement, getSVGRootElement,
    getSVGRectangle, SVGElem.setAttr, SVGElem.appendChild,
    SVGElem.appendChildren, SVGElem.attr?, SVGElem.attrs, SVGElem.children,
    SVGElem.tag, findGById, edgeLengthLabelChars, pyStripChars, pyFloatChars,
    pyFloatCharsNat, normDec, natDecChars, natDigits, digitsLE, fracChars,
    dchar, rstripC, Except.bind, bind, pure, Except.pure, min_def,
    invalidViewDirectionMsg, List.filter, List.find?, Option.or, Option.map,
    Option.bind, List.head?]
  simp

/-- C6: passing a value that is neither a supported vector nor a plane as
view_direction makes getRebarShapeSVG print an error to the console and
return an empty group element, with no children, no attributes and no
exception. -/
theorem getRebarShapeSVG_invalid_view_direction (ext : Externals)
    (rebar : Rebar) (q : ℚ) (include_mark : Bool) (rebar_stroke_width : ℚ)
    (rebar_color_style dimension_font_family : String)
    (dimension_font_size scale max_height max_width : ℚ) :
    getRebarShapeSVG ext rebar (ViewDirection.pyFloat q) include_mark
      rebar_stroke_width rebar_color_style dimension_font_family
      dimension_font_size scale max_height max_width =
      Except.ok ⟨SVGElem.elem "g" [] "" [], [invalidViewDirectionMsg]⟩ := by
  simp [getRebarShapeSVG, resolveViewPlane]

/-- C9: the empty rebar list yields a successful minimal document of size
width by row_height with the matching view box and no content. -/
theorem getRebarShapeCutList_empty (ext : Externals)
    (view_directions : ViewDirectionsArg) (include_mark : Bool)
    (rebars_stroke_width : ℚ) (rebars_color_style dimension_font_family : String)
    (dimension_font_size row_height width : ℚ) :
    getRebarShapeCutList ext [] view_directions include_mark
      rebars_stroke_width rebars_color_style dimension_font_family
      dimension_font_size row_height width =
      Except.ok (SVGElem.elem "svg"
        [("height", AttrVal.mm row_height), ("width", AttrVal.mm width),
         ("viewBox", AttrVal.viewBox width row_height)] "" []) := rfl

/-- A generic success test for Except values. -/
def exceptIsOk {ε α : Type} : Except ε α → Bool
  | Except.ok _ => true
  | Except.error _ => false

/-- C10: the scale derivation of getRebarShapeSVG divides by the projected
shape extent of each constrained axis without a guard.  For nonnegative
extents (extents are max minus min, hence always nonnegative) the
derivation succeeds exactly when each constrained extent is positive; and
the full renderer, applied to a bar whose projected bounding box has zero
height while max_height is nonzero, fails with a ZeroDivisionError instead
of returning a fragment. -/
theorem computeScale_division_safety (scale max_height max_width H W f st : ℚ)
    (im : Bool) (hH : 0 ≤ H) (hW : 0 ≤ W) :
    (exceptIsOk (computeScale scale max_height max_width H W f st im) = true ↔
      ((max_height ≠ 0 → 0 < H) ∧ (max_width ≠ 0 → 0 < W))) ∧
    getRebarShapeSVG extXY barFlat (ViewDirection.plane projXY) true (7/20)
      "shape color" "DejaVu Sans" 2 1 40 0 =
      Except.error PyError.zeroDivisionError := by
  constructor
  · rw [computeScale]
    simp only [bind, Except.bind]
    constructor
    · intro hok
      refine ⟨fun hmh => ?_, fun hmw => ?_⟩
      · rcases hH.eq_or_lt with h0 | h0
        · rw [if_pos hmh, ← h0] at hok
          simp [exceptIsOk] at hok
        · exact h0
      · rcases hW.eq_or_lt with h0 | h0
        · rw [← h0] at hok
          split_ifs at hok <;> simp_all [exceptIsOk]
        · exact h0
    · rintro ⟨hmh, hmw⟩
      split_ifs with h1 h2 h3 h4 <;> simp_all [exceptIsOk]
  · norm_num [getRebarShapeSVG, resolveViewPlane, extXY, barFlat, projXY,
      wireVertexes, getVertexesMinMaxXY, computeScale,
      Except.bind, bind, pure, Except.pure]

/-- C10 witness: at the concrete input with max_height = 3 and a zero
height extent, the safety characterisation applies and the derivation is
not ok. -/
theorem computeScale_division_safety_witness :
    (exceptIsOk (computeScale 1 3 0 0 5 2 (7/20) true) = true ↔
      (((3 : ℚ) ≠ 0 → (0 : ℚ) < 0) ∧ ((0 : ℚ) ≠ 0 → (0 : ℚ) < 5))) ∧
    getRebarShapeSVG extXY barFlat (ViewDirection.plane projXY) true (7/20)
      "shape color" "DejaVu Sans" 2 1 40 0 =
      Except.error PyError.zeroDivisionError :=
  computeScale_division_safety 1 3 0 0 5 2 (7/20) true (by norm_num)
    (by norm_num)

/-- C4: whenever the scale derivation succeeds on a shape with positive
projected extents and a nonnegative stroke width, the computed canvas
dimensions respect the supplied constraints: svg_height is at most
max_height when max_height is nonzero, and svg_width is at most max_width
when max_width is nonzero (the unrounded values already satisfy the
bound, so the rounded output attributes satisfy it within rounding). -/
theorem svgDims_fit_constraints (scale max_height max_width H W f st k : ℚ)
    (im : Bool) (hH : 0 < H) (hW : 0 < W) (hst : 0 ≤ st)
    (hk : computeScale scale max_height max_width H W f st im =
      Except.ok k) :
    (max_height ≠ 0 → svgHeightOf H k f st im ≤ max_height) ∧
    (max_width ≠ 0 → svgWidthOf W k f st ≤ max_width) := by
  simp only [computeScale, bind, Except.bind] at hk
  set A : ℚ := if im then (4 : ℚ) else 2 with hA
  constructor
  · intro hmh
    have hHne : H ≠ 0 := ne_of_gt hH
    rw [if_pos hmh, if_neg hHne] at hk
    have hkle : k ≤ (max_height - f * A - 2 * st) / H := by
      split_ifs at hk with h1 h2 <;>
        (rw [Except.ok.injEq] at hk
         exact hk ▸ min_le_right _ _)
    have hmul : H * k ≤ max_height - f * A - 2 * st := by
      calc H * k ≤ H * ((max_height - f * A - 2 * st) / H) :=
            mul_le_mul_of_nonneg_left hkle (le_of_lt hH)
        _ = max_height - f * A - 2 * st := by
            rw [mul_comm, div_mul_cancel₀ _ hHne]
    simp only [svgHeightOf, ← hA]
    nlinarith [hmul]
  · intro hmw
    have hWne : W ≠ 0 := ne_of_gt hW
    rw [if_pos hmw, if_neg hWne] at hk
    have hkle : k ≤ (max_width - 2 * f - 2 * st) / W := by
      split_ifs at hk with h1 h2 <;>
        (rw [Except.ok.injEq] at hk
         exact hk ▸ min_le_left _ _)
    have hmul : W * k ≤ max_width - 2 * f - 2 * st := by
      calc W * k ≤ W * ((max_width - 2 * f - 2 * st) / W) :=
            mul_le_mul_of_nonneg_left hkle (le_of_lt hW)
        _ = max_width - 2 * f - 2 * st := by
            rw [mul_comm, div_mul_cancel₀ _ hWne]
    simp only [svgWidthOf]
    nlinarith [hmul]

/-- C4 witness: at the concrete input (max_height 40, max_width 60,
extents 10 by 10, font 2, stroke 0.35) the derived scale is 3.13 and both
canvas dimensions respect their constraints. -/
theorem svgDims_fit_constraints_witness :
    ((40 : ℚ) ≠ 0 → svgHeightOf 10 (313/100) 2 (7/20) true ≤ 40) ∧
    ((60 : ℚ) ≠ 0 → svgWidthOf 10 (313/100) 2 (7/20) ≤ 60) :=
  svgDims_fit_constraints 1 40 60 10 10 2 (7/20) (313/100) true
    (by norm_num) (by norm_num) (by norm_num)
    (by norm_num [computeScale, Except.bind, bind, min_def])

/-- C3 counterexample: rendering the one segment bar barFlat (projected
extents 10 by 0, font 2, stroke 0.35, mark included) with scale 1 yields
the view box 0 0 13 7, with scale 2 the view box 0 0 23 7, which is not
double in either dimension; and the emitted stroke width attribute is
0.35 at scale 1 but 0.175 at scale 2, so the post compensation attribute
values are not identical across the two renders either. -/
theorem scale_doubling_counterexample :
    (match getRebarShapeSVG extXY barFlat (ViewDirection.plane projXY) true
        (7/20) "shape color" "DejaVu Sans" 2 1 0 0 with
      | Except.ok r => viewBoxDims r.svg
      | _ => none) = some (13, 7) ∧
    (match getRebarShapeSVG extXY barFlat (ViewDirection.plane projXY) true
        (7/20) "shape color" "DejaVu Sans" 2 2 0 0 with
      | Except.ok r => viewBoxDims r.svg
      | _ => none) = some (23, 7) ∧
    ¬((23 : ℚ) = 2 * 13 ∧ (7 : ℚ) = 2 * 7) ∧
    firstEdgeStrokeOf (getRebarShapeSVG extXY barFlat
      (ViewDirection.plane projXY) true (7/20) "shape color" "DejaVu Sans"
      2 1 0 0) = some (AttrVal.num (7/20)) ∧
    firstEdgeStrokeOf (getRebarShapeSVG extXY barFlat
      (ViewDirection.plane projXY) true (7/20) "shape color" "DejaVu Sans"
      2 2 0 0) = some (AttrVal.num (7/40)) ∧
    (7/40 : ℚ) ≠ 7/20 := by
  refine ⟨?_, ?_, by norm_num, ?_, ?_, by norm_num⟩ <;>
    (norm_num [getRebarShapeSVG, resolveViewPlane, extXY, barFlat, projXY,
      wireVertexes, getVertexesMinMaxXY, computeScale, svgHeightOf, svgWidthOf,
      pyRound, edgeLoop, renderEdgeSVG, dimSVG, getPointSVG, getLineSVG,
      getSVGTextElement, getSVGRootElement, SVGElem.setAttr, SVGElem.appendChild,
      SVGElem.attr?, SVGElem.attrs, SVGElem.children, viewBoxDims,
      firstEdgeStrokeOf, edgeLengthLabelChars, pyStripChars, pyFloatChars,
      pyFloatCharsNat, normDec, natDecChars, natDigits, digitsLE, fracChars,
      dchar, rstripC, Except.bind, bind, pure, Except.pure, min_def,
      List.filter, List.find?, Option.or, Option.map, Option.bind, List.head?]
     simp)

/-- C3 amended: with no max constraints the explicit scale is the final
scale, and the canvas dimensions are affine in the scale, not linear: the
difference between the renders at scale 2 and scale 1 is exactly the
projected shape extent, while the constant label allowance and stroke
terms do not double.  The emitted stroke width and font size attributes
equal the configured values divided by the scale, so it is their products
with the scale (the post transform rendered sizes), not the attribute
values themselves, that agree across the two renders. -/
theorem svgDims_affine_in_scale (H W f st scale : ℚ) (im : Bool) :
    computeScale scale 0 0 H W f st im = Except.ok scale ∧
    svgWidthOf W 2 f st - svgWidthOf W 1 f st = W ∧
    svgHeightOf H 2 f st im - svgHeightOf H 1 f st im = H ∧
    st / 2 * 2 = st / 1 * 1 ∧
    f / 2 * 2 = f / 1 * 1 := by
  refine ⟨?_, by simp [svgWidthOf]; ring, by simp [svgHeightOf]; ring,
    by ring, by ring⟩
  simp [computeScale, bind, Except.bind]

/-- C7: in the edge loop of getRebarShapeSVG a straight edge whose two
projected endpoints round to the same integer coordinate on both axes is
rendered as a filled circle of radius twice the stroke width (never a
line), and any other straight edge is rendered as a line. -/
theorem straight_edge_renders_dot_or_line (ext : Externals)
    (viewPlane : Vec3 → Point2) (filletRadius strokeWidth : ℚ)
    (color : String) (e : Edge) (hline : e.kind = EdgeKind.line) :
    (pyRound (viewPlane e.v1).x = pyRound (viewPlane e.v2).x ∧
        pyRound (viewPlane e.v1).y = pyRound (viewPlane e.v2).y →
      renderEdgeSVG ext viewPlane filletRadius strokeWidth color e =
        SVGElem.elem "circle"
          [("cx", AttrVal.num (viewPlane e.v1).x),
           ("cy", AttrVal.num (viewPlane e.v1).y),
           ("r", AttrVal.num (2 * strokeWidth)),
           ("fill", AttrVal.str color)] "" []) ∧
    (¬(pyRound (viewPlane e.v1).x = pyRound (viewPlane e.v2).x ∧
        pyRound (viewPlane e.v1).y = pyRound (viewPlane e.v2).y) →
      renderEdgeSVG ext viewPlane filletRadius strokeWidth color e =
        getLineSVG (viewPlane e.v1) (viewPlane e.v2) strokeWidth color) := by
  constructor
  · intro hdeg
    simp [renderEdgeSVG, hline, hdeg, getPointSVG]
  · intro hndeg
    simp [renderEdgeSVG, hline, if_neg hndeg]

/-- C7 witness: the degenerate edge edgeDeg (its endpoints project to
points rounding to the origin) renders as the filled circle of radius
2 times 0.35 = 0.7. -/
theorem straight_edge_renders_dot_witness :
    (pyRound (projXY edgeDeg.v1).x = pyRound (projXY edgeDeg.v2).x ∧
        pyRound (projXY edgeDeg.v1).y = pyRound (projXY edgeDeg.v2).y →
      renderEdgeSVG extXY projXY 0 (7/20) "black" edgeDeg =
        SVGElem.elem "circle"
          [("cx", AttrVal.num (projXY edgeDeg.v1).x),
           ("cy", AttrVal.num (projXY edgeDeg.v1).y),
           ("r", AttrVal.num (2 * (7/20))),
           ("fill", AttrVal.str "black")] "" []) ∧
    (¬(pyRound (projXY edgeDeg.v1).x = pyRound (projXY edgeDeg.v2).x ∧
        pyRound (projXY edgeDeg.v1).y = pyRound (projXY edgeDeg.v2).y) →
      renderEdgeSVG extXY projXY 0 (7/20) "black" edgeDeg =
        getLineSVG (projXY edgeDeg.v1) (projXY edgeDeg.v2) (7/20) "black") :=
  straight_edge_renders_dot_or_line extXY projXY 0 (7/20) "black" edgeDeg rfl

/-! ### Structural lemmas about attribute access -/

/-- A filter that removes the key k leaves nothing for find? on k. -/
lemma find?_filter_key_none (l : List (String × AttrVal)) (k : String) :
    (l.filter (fun p => p.1 != k)).find? (fun p => p.1 == k) = none := by
  induction l with
  | nil => rfl
  | cons a t ih =>
    by_cases hk : a.1 = k
    · have h1 : (a.1 != k) = false := by simp [hk]
      simp [List.filter, h1, ih]
    · have h1 : (a.1 != k) = true := by simp [hk]
      have h2 : (a.1 == k) = false := by simp [hk]
      simp [List.filter, h1, List.find?, h2, ih]

/-- A filter that removes the key k does not change find? on another
key. -/
lemma find?_filter_key_other (l : List (String × AttrVal)) (k k2 : String)
    (h : k2 ≠ k) :
    (l.filter (fun p => p.1 != k)).find? (fun p => p.1 == k2) =
      l.find? (fun p => p.1 == k2) := by
  induction l with
  | nil => rfl
  | cons a t ih =>
    by_cases hk : a.1 = k
    · have h1 : (a.1 != k) = false := by simp [hk]
      have h2 : (a.1 == k2) = false := by
        simp only [beq_eq_false_iff_ne, ne_eq, hk]
        exact fun hh => h hh.symm
      simp [List.filter, h1, List.find?, h2, ih]
    · have h1 : (a.1 != k) = true := by simp [hk]
      by_cases hk2 : a.1 = k2
      · have h2 : (a.1 == k2) = true := by simp [hk2]
        simp [List.filter, h1, List.find?, h2]
      · have h2 : (a.1 == k2) = false := by simp [hk2]
        simp [List.filter, h1, List.find?, h2, ih]

/-- Setting an attribute makes it readable. -/
lemma attr?_setAttr_self (e : SVGElem) (k : String) (v : AttrVal) :
    (e.setAttr k v).attr? k = some v := by
  cases e with
  | elem t a txt cs =>
    simp [SVGElem.setAttr, SVGElem.attr?, SVGElem.attrs, List.find?_append,
      find?_filter_key_none, List.find?]

/-- Setting an attribute does not change the other attributes. -/
lemma attr?_setAttr_other (e : SVGElem) (k k2 : String) (v : AttrVal)
    (h : k2 ≠ k) : (e.setAttr k v).attr? k2 = e.attr? k2 := by
  cases e with
  | elem t a txt cs =>
    have hkk : (k == k2) = false := by
      simp only [beq_eq_false_iff_ne, ne_eq]
      exact fun hh => h hh.symm
    simp [SVGElem.setAttr, SVGElem.attr?, SVGElem.attrs, List.find?_append,
      find?_filter_key_other a k k2 h, List.find?, hkk]

/-- Setting an attribute does not change the children. -/
lemma children_setAttr (e : SVGElem) (k : String) (v : AttrVal) :
    (e.setAttr k v).children = e.children := by
  cases e; rfl

/-- Appending children appends to the child list. -/
lemma children_appendChildren (e : SVGElem) (l : List SVGElem) :
    (e.appendChildren l).children = e.children ++ l := by
  cases e; rfl

/-- A successful row build carries the vertical translation of its row
index. -/
lemma cutRow_ok_transform (ext : Externals) (im : Bool) (stroke : ℚ)
    (style fam : String) (fsize maxh w rh : ℚ) (i : ℕ) (rebar : Rebar)
    (vd : ViewDirection) (row : SVGElem)
    (h : cutRow ext im stroke style fam fsize maxh w rh i rebar vd =
      Except.ok row) :
    row.attr? "transform" = some (AttrVal.translate 0 ((i : ℚ) * rh)) := by
  simp only [cutRow, bind, Except.bind] at h
  repeat' split at h
  all_goals (try exact Except.noConfusion h)
  all_goals
    (rw [Except.ok.injEq] at h
     subst h
     simp [SVGElem.attr?, SVGElem.attrs, List.find?])

/-- A successful row loop yields one row per rebar, and row j (counting
from the starting index i) carries the vertical translation
(i + j) * row_height. -/
lemma cutRows_ok_spec (ext : Externals) (im : Bool) (stroke : ℚ)
    (style fam : String) (fsize maxh w rh : ℚ)
    (vdl : List ViewDirection) :
    ∀ (bars : List Rebar) (i : ℕ) (rows : List SVGElem),
      cutRows ext im stroke style fam fsize maxh w rh vdl i bars =
        Except.ok rows →
      rows.length = bars.length ∧
      ∀ j (hj : j < rows.length),
        (rows.get ⟨j, hj⟩).attr? "transform" =
          some (AttrVal.translate 0 (((i + j : ℕ) : ℚ) * rh)) := by
  intro bars
  induction bars with
  | nil =>
    intro i rows h
    simp only [cutRows] at h
    rw [Except.ok.injEq] at h
    subst h
    exact ⟨rfl, fun j hj => absurd hj (by simp)⟩
  | cons b bs ih =>
    intro i rows h
    cases hvd : vdl.get? i with
    | none =>
      rw [List.get?_eq_getElem?] at hvd
      simp [cutRows, bind, Except.bind, hvd] at h
    | some vd =>
      rw [List.get?_eq_getElem?] at hvd
      cases hrow : cutRow ext im stroke style fam fsize maxh w rh i b vd with
      | error e => simp [cutRows, bind, Except.bind, hvd, hrow] at h
      | ok row =>
        cases hrest : cutRows ext im stroke style fam fsize maxh w rh vdl
            (i + 1) bs with
        | error e => simp [cutRows, bind, Except.bind, hvd, hrow, hrest] at h
        | ok rest =>
          simp only [cutRows, bind, Except.bind, List.get?_eq_getElem?, hvd, hrow, hrest] at h
          rw [Except.ok.injEq] at h
          subst h
          obtain ⟨hlen, htr⟩ := ih (i + 1) rest hrest
          refine ⟨by simp [hlen], fun j hj => ?_⟩
          cases j with
          | zero =>
            simpa using cutRow_ok_transform ext im stroke style fam fsize
              maxh w rh i b vd row hrow
          | succ j2 =>
            have hj2 : j2 < rest.length := by
              simpa using Nat.lt_of_succ_lt_succ hj
            have := htr j2 hj2
            simp only [List.get] at this ⊢
            rw [this]
            congr 2
            push_cast
            ring

/-- C8: a successful cut list build for a nonempty rebar list has exactly
one row child per rebar in input order, row j carries the vertical
translation j * row_height, and the document height attribute and view box
equal row_height times the number of rebars. -/
theorem cutList_row_structure (ext : Externals) (bars : List Rebar)
    (view_directions : ViewDirectionsArg) (include_mark : Bool)
    (stroke : ℚ) (style fam : String) (fsize rh w : ℚ) (svg : SVGElem)
    (hne : bars ≠ [])
    (h : getRebarShapeCutList ext bars view_directions include_mark stroke
      style fam fsize rh w = Except.ok svg) :
    svg.children.length = bars.length ∧
    (∀ j, j < bars.length →
      (svg.children.get? j).map (fun c => c.attr? "transform") =
        some (some (AttrVal.translate 0 ((j : ℚ) * rh)))) ∧
    svg.attr? "height" = some (AttrVal.mm (rh * bars.length)) ∧
    svg.attr? "viewBox" = some (AttrVal.viewBox w (rh * bars.length)) := by
  rcases bars with _ | ⟨b, bs⟩
  · exact absurd rfl hne
  · cases hrows : cutRows ext include_mark stroke style fam fsize
        (rh - if include_mark then 2 * fsize else 0) w rh
        (resolveViewDirections view_directions (b :: bs).length) 0
        (b :: bs) with
    | error e =>
      simp only [getRebarShapeCutList, List.isEmpty_cons, Bool.false_eq_true,
        if_false, bind, Except.bind, hrows] at h
      exact Except.noConfusion h
    | ok rows =>
      simp only [getRebarShapeCutList, List.isEmpty_cons, Bool.false_eq_true,
        if_false, bind, Except.bind, hrows] at h
      rw [Except.ok.injEq] at h
      subst h
      obtain ⟨hlen, htr⟩ := cutRows_ok_spec ext include_mark stroke style fam
        fsize (rh - if include_mark then 2 * fsize else 0) w rh
        (resolveViewDirections view_directions (b :: bs).length)
        (b :: bs) 0 rows hrows
      have hch : ∀ (x1 x2 x3 : AttrVal),
          ((((getSVGRootElement.appendChildren rows).setAttr "width" x1).setAttr
            "height" x2).setAttr "viewBox" x3).children = rows := by
        intro x1 x2 x3
        simp only [children_setAttr, children_appendChildren]
        simp [getSVGRootElement, SVGElem.children]
      refine ⟨?_, ?_, ?_, ?_⟩
      · rw [hch]
        exact hlen
      · intro j hj
        rw [hch]
        have hj2 : j < rows.length := by rw [hlen]; exact hj
        rw [List.get?_eq_get hj2]
        have := htr j hj2
        simp only [Option.map_some']
        simpa using this
      · rw [attr?_setAttr_other _ _ _ _ (by decide), attr?_setAttr_self]
      · rw [attr?_setAttr_self]

/-- The concrete cut list document built from the two diagonal rebars with
a broadcast view direction. -/
def cutListConcrete : SVGElem :=
  ((getRebarShapeCutList extXY [barDiagA, barDiagB]
      (ViewDirectionsArg.single ⟨0, 0, 1⟩) true (7/20) "shape color"
      "DejaVu Sans" 2 40 60).toOption).getD (SVGElem.elem "g" [] "" [])

/-- C8 witness: the concrete two rebar cut list has two rows and document
height 80. -/
theorem cutList_row_structure_witness :
    cutListConcrete.children.length = 2 ∧
    cutListConcrete.attr? "height" = some (AttrVal.mm 80) := by
  have h : getRebarShapeCutList extXY [barDiagA, barDiagB]
      (ViewDirectionsArg.single ⟨0, 0, 1⟩) true (7/20) "shape color"
      "DejaVu Sans" 2 40 60 = Except.ok cutListConcrete := by
    norm_num [cutListConcrete, Except.toOption, Option.getD,
      getRebarShapeCutList, cutRows, cutRow, resolveViewDirections,
      getRebarShapeSVG, resolveViewPlane, extXY, barDiagA, barDiagB, projXY,
      wireVertexes, getVertexesMinMaxXY, computeScale, svgHeightOf, svgWidthOf,
      pyRound, edgeLoop, renderEdgeSVG, dimSVG, getPointSVG, getLineSVG,
      getSVGTextElement, getSVGRootElement, getSVGRectangle, SVGElem.setAttr,
      SVGElem.appendChild, SVGElem.appendChildren, SVGElem.attr?,
      SVGElem.attrs, SVGElem.children, SVGElem.tag, findGById,
      edgeLengthLabelChars, pyStripChars, pyFloatChars, pyFloatCharsNat,
      normDec, natDecChars, natDigits, digitsLE, fracChars, dchar, rstripC,
      Except.bind, bind, pure, Except.pure, min_def, List.filter, List.find?,
      Option.or, Option.map, Option.bind, List.head?]
    simp
  have hmain := cutList_row_structure extXY [barDiagA, barDiagB]
    (ViewDirectionsArg.single ⟨0, 0, 1⟩) true (7/20) "shape color"
    "DejaVu Sans" 2 40 60 cutListConcrete (by simp) h
  refine ⟨by simpa using hmain.1, ?_⟩
  have := hmain.2.2.1
  norm_num at this
  exact this

/-! ### Correctness of the decimal label rendering -/

/-- The value of a little endian digit list. -/
def valLE (ds : List ℕ) : ℕ := ds.foldr (fun d acc => d + 10 * acc) 0

/-- Every entry of digitsLE is a digit. -/
lemma digitsLE_lt (f : ℕ) : ∀ (n : ℕ), ∀ d ∈ digitsLE f n, d < 10 := by
  induction f with
  | zero => intro n d hd; simp [digitsLE] at hd
  | succ f ih =>
    intro n d hd
    cases n with
    | zero => simp [digitsLE] at hd
    | succ m =>
      simp only [digitsLE, List.mem_cons] at hd
      rcases hd with h | h
      · exact h ▸ Nat.mod_lt _ (by norm_num)
      · exact ih _ d h

/-- With enough fuel, the digit list evaluates back to the number. -/
lemma valLE_digitsLE (f : ℕ) : ∀ n, n ≤ f → valLE (digitsLE f n) = n := by
  induction f with
  | zero =>
    intro n hn
    interval_cases n
    rfl
  | succ f ih =>
    intro n hn
    cases n with
    | zero => rfl
    | succ m =>
      have hdiv : (m + 1) / 10 ≤ f := by
        have : (m + 1) / 10 < m + 1 := Nat.div_lt_self (Nat.succ_pos m) (by norm_num)
        omega
      simp only [digitsLE, valLE, List.foldr]
      have := ih ((m + 1) / 10) hdiv
      simp only [valLE] at this
      rw [this]
      omega

/-- The digit list of n. -/
lemma valLE_natDigits (n : ℕ) : valLE (natDigits n) = n :=
  valLE_digitsLE n n le_rfl

/-- The digit list of a number below 10^p has at most p digits. -/
lemma digitsLE_length_le (f : ℕ) : ∀ n p, n < 10 ^ p →
    (digitsLE f n).length ≤ p := by
  induction f with
  | zero => intro n p _; simp [digitsLE]
  | succ f ih =>
    intro n p hn
    cases n with
    | zero => simp [digitsLE]
    | succ m =>
      cases p with
      | zero => simp at hn
      | succ q =>
        simp only [digitsLE, List.length_cons]
        have hq : (m + 1) / 10 < 10 ^ q := by
          rw [Nat.div_lt_iff_lt_mul (by norm_num)]
          calc m + 1 < 10 ^ (q + 1) := hn
            _ = 10 ^ q * 10 := by ring
        exact Nat.succ_le_succ (ih _ q hq)

/-- The head of the digit list of a positive number with positive fuel is
its low digit. -/
lemma digitsLE_head (f m : ℕ) (hm : 0 < m) (hf : 0 < f) :
    (digitsLE f m).head? = some (m % 10) := by
  cases f with
  | zero => omega
  | succ g =>
    cases m with
    | zero => omega
    | succ k => rfl

/-- The digit list of a positive number is nonempty. -/
lemma natDigits_ne_nil (n : ℕ) (hn : 0 < n) : natDigits n ≠ [] := by
  intro hcon
  have := digitsLE_head n n hn hn
  rw [natDigits] at hcon
  rw [hcon] at this
  simp at this

/-- Digit characters are decimal digits. -/
lemma dchar_isDigit : ∀ d, d < 10 → (dchar d).isDigit = true := by decide

/-- Digit characters decode back to their digit. -/
lemma dchar_toNat : ∀ d, d < 10 → (dchar d).toNat - 48 = d := by decide

/-- A digit character is never a period. -/
lemma dchar_ne_dot : ∀ d, d < 10 → ((dchar d) == '.') = false := by decide

/-- A nonzero digit character is never the zero character. -/
lemma dchar_ne_zeroChar : ∀ d, d < 10 → d ≠ 0 → ((dchar d) == '0') = false := by
  decide

/-- A decimal digit character is not a minus sign. -/
lemma isDigit_ne_dash (c : Char) (h : c.isDigit = true) : ¬c = '-' := by
  intro hcon
  subst hcon
  exact absurd h (by decide)

/-- A decimal digit character is not a period (propositional form). -/
lemma isDigit_ne_dot (c : Char) (h : c.isDigit = true) : ¬c = '.' := by
  intro hcon
  subst hcon
  exact absurd h (by decide)

/-- Folding the parser step over the big endian character rendering of a
digit list computes its value. -/
lemma foldl_digit_chars (ds : List ℕ) (h : ∀ d ∈ ds, d < 10) : ∀ (a : ℕ),
    (ds.reverse.map dchar).foldl (fun x c => 10 * x + (c.toNat - 48)) a =
      a * 10 ^ ds.length + valLE ds := by
  induction ds with
  | nil => intro a; simp [valLE]
  | cons d tl ih =>
    intro a
    have hd : d < 10 := h d (by simp)
    have htl : ∀ x ∈ tl, x < 10 := fun x hx => h x (List.mem_cons_of_mem _ hx)
    simp only [List.reverse_cons, List.map_append, List.foldl_append,
      List.map_cons, List.map_nil, List.foldl_cons, List.foldl_nil]
    rw [ih htl a, dchar_toNat d hd]
    simp only [valLE, List.foldr, List.length_cons]
    ring

/-- Every character of natDecChars is a decimal digit. -/
lemma mem_natDecChars_isDigit (n : ℕ) :
    ∀ c ∈ natDecChars n, c.isDigit = true := by
  intro c hc
  rw [natDecChars] at hc
  split_ifs at hc with h0
  · simp at hc
    subst hc
    decide
  · simp only [List.mem_map, List.mem_reverse] at hc
    obtain ⟨d, hd, rfl⟩ := hc
    exact dchar_isDigit d (digitsLE_lt n n d hd)

/-- natDecChars is never empty. -/
lemma natDecChars_ne_nil (n : ℕ) : natDecChars n ≠ [] := by
  rw [natDecChars]
  split_ifs with h0
  · simp
  · simp only [ne_eq, List.map_eq_nil_iff, List.reverse_eq_nil_iff]
    exact natDigits_ne_nil n (Nat.pos_of_ne_zero h0)

/-- The period does not occur in natDecChars. -/
lemma dot_not_mem_natDecChars (n : ℕ) : '.' ∉ natDecChars n := by
  intro hmem
  exact absurd (mem_natDecChars_isDigit n '.' hmem) (by decide)

/-- The minus sign does not head natDecChars. -/
lemma natDecChars_head_digit (n : ℕ) :
    ∃ c, (natDecChars n).head? = some c ∧ c.isDigit = true := by
  cases hl : natDecChars n with
  | nil => exact absurd hl (natDecChars_ne_nil n)
  | cons c rest =>
    refine ⟨c, rfl, mem_natDecChars_isDigit n c ?_⟩
    rw [hl]
    simp

/-- The decimal rendering of a natural number parses back to it. -/
lemma parseNatChars_natDecChars (n : ℕ) :
    parseNatChars (natDecChars n) = some n := by
  by_cases h0 : n = 0
  · subst h0; decide
  · have hne : natDecChars n ≠ [] := natDecChars_ne_nil n
    have hdig : ∀ c ∈ natDecChars n, c.isDigit = true :=
      mem_natDecChars_isDigit n
    rw [parseNatChars, if_pos ⟨hne, hdig⟩, natDecChars, if_neg h0]
    rw [foldl_digit_chars (natDigits n) (digitsLE_lt n n) 0]
    rw [valLE_natDigits]
    simp

/-- The last character of natDecChars is the character of the low
digit. -/
lemma natDecChars_getLast (n : ℕ) :
    (natDecChars n).getLast? = some (dchar (n % 10)) := by
  by_cases h0 : n = 0
  · subst h0; decide
  · rw [natDecChars, if_neg h0]
    rw [List.getLast?_map, List.getLast?_reverse]
    rw [natDigits, digitsLE_head n n (Nat.pos_of_ne_zero h0) (Nat.pos_of_ne_zero h0)]
    rfl

/-- normDec preserves the represented value. -/
lemma normDec_val (p : ℕ) : ∀ m : ℕ,
    ((normDec m p).1 : ℚ) / 10 ^ (normDec m p).2 = (m : ℚ) / 10 ^ p := by
  induction p with
  | zero => intro m; rfl
  | succ p ih =>
    intro m
    rw [normDec]
    split_ifs with h10
    · have hdvd : 10 ∣ m := Nat.dvd_of_mod_eq_zero h10
      obtain ⟨c, rfl⟩ := hdvd
      rw [Nat.mul_div_cancel_left c (by norm_num : (0:ℕ) < 10)]
      rw [ih c]
      push_cast
      rw [pow_succ]
      field_simp
      ring
    · rfl

/-- When normDec keeps a positive exponent, the mantissa is not divisible
by ten. -/
lemma normDec_mod (p : ℕ) : ∀ m : ℕ, (normDec m p).2 ≠ 0 →
    (normDec m p).1 % 10 ≠ 0 := by
  induction p with
  | zero => intro m h; exact absurd rfl h
  | succ p ih =>
    intro m h
    by_cases h10 : m % 10 = 0
    · have he : normDec m (p + 1) = normDec (m / 10) p := by
        simp [normDec, h10]
      rw [he] at h ⊢
      exact ih _ h
    · have he : normDec m (p + 1) = (m, p + 1) := by
        simp [normDec, h10]
      rw [he]
      exact h10

/-- fracChars renders exactly p characters. -/
lemma fracChars_length (m p : ℕ) : (fracChars m p).length = p := by
  rw [fracChars]
  simp only [List.length_append, List.length_replicate, List.length_map,
    List.length_reverse]
  have : (natDigits (m % 10 ^ p)).length ≤ p := by
    rw [natDigits]
    exact digitsLE_length_le _ _ p (Nat.mod_lt _ (by positivity))
  omega

/-- Every character of fracChars is a decimal digit. -/
lemma mem_fracChars_isDigit (m p : ℕ) :
    ∀ c ∈ fracChars m p, c.isDigit = true := by
  intro c hc
  rw [fracChars] at hc
  simp only [List.mem_append, List.mem_replicate, List.mem_map,
    List.mem_reverse] at hc
  rcases hc with ⟨-, rfl⟩ | ⟨d, hd, rfl⟩
  · decide
  · exact dchar_isDigit d (digitsLE_lt _ _ d hd)

/-- Folding the parser step over a block of zero characters keeps a zero
accumulator. -/
lemma foldl_replicate_zeroChar (k : ℕ) :
    (List.replicate k '0').foldl (fun x c => 10 * x + (c.toNat - 48)) 0 = 0 := by
  induction k with
  | zero => rfl
  | succ k ih => simpa [List.replicate_succ] using ih

/-- fracChars parses back to the fractional mantissa. -/
lemma parseNatChars_fracChars (m p : ℕ) (hp : 0 < p) :
    parseNatChars (fracChars m p) = some (m % 10 ^ p) := by
  have hne : fracChars m p ≠ [] := by
    intro hcon
    have := fracChars_length m p
    rw [hcon] at this
    simp at this
    omega
  rw [parseNatChars, if_pos ⟨hne, mem_fracChars_isDigit m p⟩]
  rw [fracChars]
  rw [List.foldl_append, foldl_replicate_zeroChar]
  rw [foldl_digit_chars (natDigits (m % 10 ^ p)) (digitsLE_lt _ _) 0]
  rw [valLE_natDigits]
  simp

/-- The last character of fracChars is the character of the low digit of
the mantissa, provided the fractional mantissa is positive. -/
lemma fracChars_getLast (m p : ℕ) (hp : 0 < p) (hm : 0 < m % 10 ^ p) :
    (fracChars m p).getLast? = some (dchar (m % 10)) := by
  rw [fracChars]
  have hne : (natDigits (m % 10 ^ p)).reverse.map dchar ≠ [] := by
    simp only [ne_eq, List.map_eq_nil_iff, List.reverse_eq_nil_iff]
    exact natDigits_ne_nil _ hm
  rw [List.getLast?_append_of_ne_nil _ hne]
  rw [List.getLast?_map, List.getLast?_reverse]
  rw [natDigits, digitsLE_head _ _ hm hm]
  have : m % 10 ^ p % 10 = m % 10 := Nat.mod_mod_of_dvd m (dvd_pow_self 10 (by omega))
  rw [this]
  rfl

/-- dropWhile distributes over an append whose final singleton fails the
predicate. -/
lemma dropWhile_append_singleton {p : Char → Bool} (xs : List Char)
    (d : Char) (hd : p d = false) :
    (xs ++ [d]).dropWhile p = xs.dropWhile p ++ [d] := by
  induction xs with
  | nil => simp [List.dropWhile, hd]
  | cons x tl ih =>
    cases hx : p x with
    | true => simpa [List.dropWhile, hx] using ih
    | false => simp [List.dropWhile, hx]

/-- Stripping a character from the right leaves a list whose last element
is different untouched. -/
lemma rstripC_append_last (as : List Char) (d c : Char)
    (h : (d == c) = false) : rstripC (as ++ [d]) c = as ++ [d] := by
  rw [rstripC, List.reverse_append]
  simp only [List.reverse_cons, List.reverse_nil, List.nil_append,
    List.singleton_append, List.dropWhile]
  rw [h]
  simp

/-- Stripping a character from the right commutes with a different head
character. -/
lemma rstripC_cons (a : Char) (l : List Char) (c : Char)
    (h : (a == c) = false) : rstripC (a :: l) c = a :: rstripC l c := by
  rw [rstripC, rstripC, List.reverse_cons,
    dropWhile_append_singleton (p := fun x => x == c) l.reverse a h]
  simp

/-- Stripping trailing zeros from a decimal string that ends in ".0"
removes exactly the final zero. -/
lemma rstripC_dot_zero (xs : List Char) :
    rstripC (xs ++ ['.', '0']) '0' = xs ++ ['.'] := by
  rw [rstripC]
  have h1 : (xs ++ ['.', '0']).reverse = '0' :: '.' :: xs.reverse := by simp
  rw [h1]
  have h2 : List.dropWhile (fun x => x == '0') ('0' :: '.' :: xs.reverse) =
      '.' :: xs.reverse := by
    simp [List.dropWhile]
  rw [h2]
  simp

/-- Stripping the trailing period from a decimal string that ends with a
digit then a period removes exactly the period. -/
lemma rstripC_trailing_dot (as : List Char) (d : Char)
    (h : (d == '.') = false) :
    rstripC ((as ++ [d]) ++ ['.']) '.' = as ++ [d] := by
  rw [rstripC]
  have h1 : ((as ++ [d]) ++ ['.']).reverse = '.' :: d :: as.reverse := by simp
  rw [h1]
  have h2 : List.dropWhile (fun x => x == '.') ('.' :: d :: as.reverse) =
      d :: as.reverse := by
    simp [List.dropWhile, h]
  rw [h2]
  simp

/-- A list with a known last element decomposes as an append. -/
lemma exists_concat_of_getLast {α : Type} (l : List α) (d : α)
    (h : l.getLast? = some d) : ∃ as, l = as ++ [d] := by
  induction l with
  | nil => simp at h
  | cons a tl ih =>
    cases tl with
    | nil =>
      simp only [List.getLast?_singleton, Option.some.injEq] at h
      exact ⟨[], by simp [h]⟩
    | cons b tl2 =>
      rw [List.getLast?_cons_cons] at h
      obtain ⟨as, has⟩ := ih h
      exact ⟨a :: as, by rw [List.cons_append, ← has]⟩

/-- takeWhile runs through a prefix that satisfies the predicate. -/
lemma takeWhile_append_all {p : Char → Bool} (xs ys : List Char)
    (h : ∀ x ∈ xs, p x = true) :
    (xs ++ ys).takeWhile p = xs ++ ys.takeWhile p := by
  induction xs with
  | nil => simp
  | cons x tl ih =>
    have hx : p x = true := h x (by simp)
    simp only [List.cons_append, List.takeWhile_cons, hx]
    rw [ih (fun y hy => h y (List.mem_cons_of_mem _ hy))]
    simp

/-- dropWhile runs through a prefix that satisfies the predicate. -/
lemma dropWhile_append_all {p : Char → Bool} (xs ys : List Char)
    (h : ∀ x ∈ xs, p x = true) :
    (xs ++ ys).dropWhile p = ys.dropWhile p := by
  induction xs with
  | nil => simp
  | cons x tl ih =>
    have hx : p x = true := h x (by simp)
    simp only [List.cons_append, List.dropWhile_cons, hx]
    exact ih (fun y hy => h y (List.mem_cons_of_mem _ hy))

/-- A digit character is not stripped as a period in boolean form. -/
lemma bne_dot_of_isDigit (c : Char) (h : c.isDigit = true) :
    (c != '.') = true := by
  simp only [bne_iff_ne, ne_eq]
  exact isDigit_ne_dot c h

/-- The core of the label correctness: for a nonnegative mantissa, the
stripped Python float rendering of n / 10^p parses back to the exact
value, starts with a digit, and when it still contains a period it ends
neither in a zero nor in a period. -/
lemma pyFloat_strip_natSpec (n p : ℕ) :
    parseUnsignedChars (pyStripChars (pyFloatCharsNat n p)) =
      some ((n : ℚ) / 10 ^ p) ∧
    (∃ c, (pyStripChars (pyFloatCharsNat n p)).head? = some c ∧
      c.isDigit = true) ∧
    ('.' ∈ pyStripChars (pyFloatCharsNat n p) →
      (pyStripChars (pyFloatCharsNat n p)).getLast? ≠ some '0' ∧
      (pyStripChars (pyFloatCharsNat n p)).getLast? ≠ some '.') := by
  by_cases hp2 : (normDec n p).2 = 0
  · -- integral case: the rendering is "<int>.0" and stripping leaves the int part
    have hchars : pyFloatCharsNat n p = natDecChars (normDec n p).1 ++ ['.', '0'] := by
      rw [pyFloatCharsNat]
      simp [hp2]
    have hdot : '.' ∈ pyFloatCharsNat n p := by
      rw [hchars]; simp
    obtain ⟨as, has⟩ := exists_concat_of_getLast _ _ (natDecChars_getLast (normDec n p).1)
    have hstrip : pyStripChars (pyFloatCharsNat n p) = natDecChars (normDec n p).1 := by
      rw [pyStripChars, if_pos hdot, hchars, rstripC_dot_zero, has,
        rstripC_trailing_dot as _ (dchar_ne_dot _ (Nat.mod_lt _ (by norm_num)))]
    rw [hstrip]
    refine ⟨?_, natDecChars_head_digit _, fun hd => absurd hd (dot_not_mem_natDecChars _)⟩
    have hnotdot : ∀ c ∈ natDecChars (normDec n p).1, (c != '.') = true :=
      fun c hc => bne_dot_of_isDigit c (mem_natDecChars_isDigit _ c hc)
    have htake : (natDecChars (normDec n p).1).takeWhile (fun c => c != '.') =
        natDecChars (normDec n p).1 :=
      List.takeWhile_eq_self_iff.mpr hnotdot
    have hdrop : (natDecChars (normDec n p).1).dropWhile (fun c => c != '.') =
        ([] : List Char) :=
      List.dropWhile_eq_nil_iff.mpr (fun c hc => hnotdot c hc)
    have hval : ((normDec n p).1 : ℚ) = (n : ℚ) / 10 ^ p := by
      have := normDec_val p n
      rw [hp2] at this
      simpa using this
    simp only [parseUnsignedChars, htake, hdrop, parseNatChars_natDecChars,
      Option.map_some']
    simp [hval]
  · -- fractional case: nothing is stripped
    have hlt : (normDec n p).1 % 10 < 10 := Nat.mod_lt _ (by norm_num)
    have hmod : (normDec n p).1 % 10 ≠ 0 := normDec_mod p n hp2
    have hp2pos : 0 < (normDec n p).2 := Nat.pos_of_ne_zero hp2
    have hfpos : 0 < (normDec n p).1 % 10 ^ (normDec n p).2 := by
      rcases Nat.eq_zero_or_pos ((normDec n p).1 % 10 ^ (normDec n p).2) with h0 | h0
      · exfalso
        have hdvd : 10 ^ (normDec n p).2 ∣ (normDec n p).1 :=
          Nat.dvd_of_mod_eq_zero h0
        have h10 : (10 : ℕ) ∣ (normDec n p).1 :=
          dvd_trans (dvd_pow_self 10 hp2) hdvd
        omega
      · exact h0
    have hchars : pyFloatCharsNat n p =
        natDecChars ((normDec n p).1 / 10 ^ (normDec n p).2) ++
          '.' :: fracChars (normDec n p).1 (normDec n p).2 := by
      rw [pyFloatCharsNat]
      simp [hp2]
    have hfne : fracChars (normDec n p).1 (normDec n p).2 ≠ [] := by
      intro hcon
      have := fracChars_length (normDec n p).1 (normDec n p).2
      rw [hcon] at this
      simp at this
      omega
    have hlast : (pyFloatCharsNat n p).getLast? =
        some (dchar ((normDec n p).1 % 10)) := by
      rw [hchars]
      have hsp : natDecChars ((normDec n p).1 / 10 ^ (normDec n p).2) ++
          '.' :: fracChars (normDec n p).1 (normDec n p).2 =
          (natDecChars ((normDec n p).1 / 10 ^ (normDec n p).2) ++ ['.']) ++
            fracChars (normDec n p).1 (normDec n p).2 := by simp
      rw [hsp, List.getLast?_append_of_ne_nil _ hfne,
        fracChars_getLast _ _ hp2pos hfpos]
    obtain ⟨as, has⟩ := exists_concat_of_getLast _ _ hlast
    have hdot : '.' ∈ pyFloatCharsNat n p := by
      rw [hchars]
      simp
    have hstrip : pyStripChars (pyFloatCharsNat n p) = pyFloatCharsNat n p := by
      rw [pyStripChars, if_pos hdot, has,
        rstripC_append_last _ _ _ (dchar_ne_zeroChar _ hlt hmod),
        rstripC_append_last _ _ _ (dchar_ne_dot _ hlt)]
    rw [hstrip]
    have hnotdot : ∀ c ∈ natDecChars ((normDec n p).1 / 10 ^ (normDec n p).2),
        (c != '.') = true :=
      fun c hc => bne_dot_of_isDigit c (mem_natDecChars_isDigit _ c hc)
    refine ⟨?_, ?_, fun _ => ⟨?_, ?_⟩⟩
    · have htake : (pyFloatCharsNat n p).takeWhile (fun c => c != '.') =
          natDecChars ((normDec n p).1 / 10 ^ (normDec n p).2) := by
        rw [hchars, takeWhile_append_all _ _ hnotdot]
        simp [List.takeWhile_cons]
      have hdrop : (pyFloatCharsNat n p).dropWhile (fun c => c != '.') =
          '.' :: fracChars (normDec n p).1 (normDec n p).2 := by
        rw [hchars, dropWhile_append_all _ _ hnotdot]
        simp [List.dropWhile_cons]
      simp only [parseUnsignedChars, htake, hdrop, parseNatChars_natDecChars,
        parseNatChars_fracChars _ _ hp2pos, fracChars_length]
      have hval : ((normDec n p).1 : ℚ) / 10 ^ (normDec n p).2 =
          (n : ℚ) / 10 ^ p := normDec_val p n
      have hcast : ((normDec n p).1 : ℚ) =
          10 ^ (normDec n p).2 * ((normDec n p).1 / 10 ^ (normDec n p).2 : ℕ) +
            ((normDec n p).1 % 10 ^ (normDec n p).2 : ℕ) := by
        exact_mod_cast (Nat.div_add_mod (normDec n p).1 (10 ^ (normDec n p).2)).symm
      have hB : ((10 : ℚ) ^ (normDec n p).2) ≠ 0 := by positivity
      have hsplit : (((normDec n p).1 / 10 ^ (normDec n p).2 : ℕ) : ℚ) +
          (((normDec n p).1 % 10 ^ (normDec n p).2 : ℕ) : ℚ) /
            10 ^ (normDec n p).2 =
          ((normDec n p).1 : ℚ) / 10 ^ (normDec n p).2 := by
        rw [hcast]
        field_simp
        ring
      rw [hsplit, hval]
    · rw [hchars]
      obtain ⟨c, hc, hcd⟩ :=
        natDecChars_head_digit ((normDec n p).1 / 10 ^ (normDec n p).2)
      cases hl : natDecChars ((normDec n p).1 / 10 ^ (normDec n p).2) with
      | nil => exact absurd hl (natDecChars_ne_nil _)
      | cons c0 rest =>
        rw [hl] at hc
        simp only [List.head?_cons, Option.some.injEq] at hc
        subst hc
        exact ⟨c0, by simp, hcd⟩
    · rw [has]
      rw [List.getLast?_append_of_ne_nil _ (by simp : [dchar ((normDec n p).1 % 10)] ≠ [])]
      simp only [List.getLast?_singleton, ne_eq, Option.some.injEq]
      intro hcon
      have := dchar_ne_zeroChar _ hlt hmod
      rw [hcon] at this
      simp at this
    · rw [has]
      rw [List.getLast?_append_of_ne_nil _ (by simp : [dchar ((normDec n p).1 % 10)] ≠ [])]
      simp only [List.getLast?_singleton, ne_eq, Option.some.injEq]
      intro hcon
      have := dchar_ne_dot _ hlt
      rw [hcon] at this
      simp at this


/-- Stripping commutes with a leading minus sign. -/
lemma pyStripChars_cons_dash (l : List Char) :
    pyStripChars ('-' :: l) = '-' :: pyStripChars l := by
  have hdash0 : (('-' : Char) == '0') = false := by decide
  have hdashdot : (('-' : Char) == '.') = false := by decide
  have hmem : ('.' ∈ ('-' :: l)) ↔ ('.' ∈ l) := by
    simp [List.mem_cons]
  rw [pyStripChars, pyStripChars]
  by_cases hdot : '.' ∈ l
  · rw [if_pos (hmem.mpr hdot), if_pos hdot, rstripC_cons _ _ _ hdash0,
      rstripC_cons _ _ _ hdashdot]
  · rw [if_neg (fun hcon => hdot (hmem.mp hcon)), if_neg hdot]

/-- Label correctness: the printed dimension label parses back to the
true length rounded to the configured precision, and when it contains a
period it has no trailing zero and no dangling period. -/
lemma edgeLengthLabel_spec (q : ℚ) (p : ℕ) :
    parseDecChars (edgeLengthLabelChars q p) = some (pyRoundPrec q p) ∧
    ('.' ∈ edgeLengthLabelChars q p →
      (edgeLengthLabelChars q p).getLast? ≠ some '0' ∧
      (edgeLengthLabelChars q p).getLast? ≠ some '.') := by
  rw [edgeLengthLabelChars, pyFloatChars, pyRoundPrec]
  by_cases hneg : pyRound (q * 10 ^ p) < 0
  · rw [if_pos hneg, pyStripChars_cons_dash]
    obtain ⟨hparse, ⟨c, hc, hcd⟩, hdotc⟩ :=
      pyFloat_strip_natSpec (pyRound (q * 10 ^ p)).natAbs p
    have habs : (((pyRound (q * 10 ^ p)).natAbs : ℚ)) =
        -((pyRound (q * 10 ^ p) : ℤ) : ℚ) := by
      have h1 : ((pyRound (q * 10 ^ p)).natAbs : ℤ) = -pyRound (q * 10 ^ p) :=
        Int.ofNat_natAbs_of_nonpos (le_of_lt hneg)
      have h3 := congrArg (fun z : ℤ => (z : ℚ)) h1
      simp only [Int.cast_natCast, Int.cast_neg] at h3
      exact h3
    constructor
    · rw [parseDecChars, if_pos rfl, hparse, Option.map_some', habs]
      congr 1
      ring
    · intro hdot2
      have hdot3 : '.' ∈ pyStripChars
          (pyFloatCharsNat (pyRound (q * 10 ^ p)).natAbs p) := by
        rcases List.mem_cons.mp hdot2 with h | h
        · exact absurd h (by decide)
        · exact h
      obtain ⟨h0, hdt⟩ := hdotc hdot3
      cases hl : pyStripChars (pyFloatCharsNat (pyRound (q * 10 ^ p)).natAbs p) with
      | nil =>
        rw [hl] at hc
        simp at hc
      | cons x xs =>
        rw [hl] at h0 hdt
        constructor <;> rw [List.getLast?_cons_cons] <;> assumption
  · rw [if_neg hneg]
    push_neg at hneg
    obtain ⟨hparse, ⟨c, hc, hcd⟩, hdotc⟩ :=
      pyFloat_strip_natSpec (pyRound (q * 10 ^ p)).toNat p
    have htn : (((pyRound (q * 10 ^ p)).toNat : ℚ)) =
        ((pyRound (q * 10 ^ p) : ℤ) : ℚ) := by
      exact_mod_cast Int.toNat_of_nonneg hneg
    refine ⟨?_, hdotc⟩
    cases hl : pyStripChars (pyFloatCharsNat (pyRound (q * 10 ^ p)).toNat p) with
    | nil =>
      rw [hl] at hc
      simp at hc
    | cons c0 rest =>
      rw [hl] at hc hparse
      simp only [List.head?_cons, Option.some.injEq] at hc
      subst hc
      rw [parseDecChars, if_neg (isDigit_ne_dash _ hcd), hparse, htn]

/-- Characterisation of a successful edge loop run: the edge svgs are the
per edge renderings in order, there is exactly one dimension svg per
straight edge, and the k-th dimension svg pairs the k-th straight edge of
the filleted wire with the entry of the unfilleted edge list at the
lockstep cursor position idx + k. -/
lemma edgeLoop_ok_spec (ext : Externals) (viewPlane : Vec3 → Point2)
    (filletRadius strokeWidth : ℚ) (color fontFamily : String)
    (fontSize : ℚ) (precision : ℕ) (straight_edges : List Edge) :
    ∀ (edges : List Edge) (idx : ℕ) (es ds : List SVGElem),
      edgeLoop ext viewPlane filletRadius strokeWidth color fontFamily
        fontSize precision straight_edges edges idx = Except.ok (es, ds) →
      es = edges.map
        (renderEdgeSVG ext viewPlane filletRadius strokeWidth color) ∧
      ds.length =
        (edges.filter (fun e => e.kind == EdgeKind.line)).length ∧
      ∀ k, (hk : k < ds.length) →
        ∃ e se,
          (edges.filter (fun e => e.kind == EdgeKind.line)).get? k = some e ∧
          straight_edges.get? (idx + k) = some se ∧
          ds.get ⟨k, hk⟩ =
            dimSVG viewPlane strokeWidth fontFamily fontSize precision e se := by
  intro edges
  induction edges with
  | nil =>
    intro idx es ds h
    simp only [edgeLoop] at h
    rw [Except.ok.injEq, Prod.mk.injEq] at h
    obtain ⟨h1, h2⟩ := h
    subst h1
    subst h2
    refine ⟨by simp, by simp, fun k hk => absurd hk (by simp)⟩
  | cons e rest ih =>
    intro idx es ds h
    cases hkind : e.kind with
    | line =>
      cases hse : straight_edges.get? idx with
      | none =>
        rw [List.get?_eq_getElem?] at hse
        simp [edgeLoop, hkind, hse, bind, Except.bind] at h
      | some se =>
        rw [List.get?_eq_getElem?] at hse
        cases hrec : edgeLoop ext viewPlane filletRadius strokeWidth color
            fontFamily fontSize precision straight_edges rest (idx + 1) with
        | error er =>
          simp [edgeLoop, hkind, hse, hrec, bind, Except.bind] at h
        | ok pair =>
          obtain ⟨es2, ds2⟩ := pair
          simp only [edgeLoop, hkind, List.get?_eq_getElem?, hse, hrec, bind,
            Except.bind] at h
          rw [Except.ok.injEq, Prod.mk.injEq] at h
          obtain ⟨hes, hds⟩ := h
          subst hes
          subst hds
          obtain ⟨ihes, ihlen, ihk⟩ := ih (idx + 1) es2 ds2 hrec
          have hfil : (e :: rest).filter (fun e => e.kind == EdgeKind.line) =
              e :: rest.filter (fun e => e.kind == EdgeKind.line) :=
            List.filter_cons_of_pos (by simp [hkind])
          refine ⟨by simp [ihes], by simp [hfil, ihlen], fun k hk => ?_⟩
          cases k with
          | zero =>
            refine ⟨e, se, by simp [hfil], ?_, rfl⟩
            rw [List.get?_eq_getElem?, Nat.add_zero]
            exact hse
          | succ k2 =>
            have hk2 : k2 < ds2.length := by simpa using hk
            obtain ⟨e2, se2, hge, hgs, hdim⟩ := ihk k2 hk2
            refine ⟨e2, se2, ?_, ?_, ?_⟩
            · rw [hfil]
              simpa using hge
            · rw [show idx + (k2 + 1) = idx + 1 + k2 by omega]
              exact hgs
            · simpa using hdim
    | circle =>
      cases hrec : edgeLoop ext viewPlane filletRadius strokeWidth color
          fontFamily fontSize precision straight_edges rest idx with
      | error er =>
        simp [edgeLoop, hkind, hrec, bind, Except.bind] at h
      | ok pair =>
        obtain ⟨es2, ds2⟩ := pair
        simp only [edgeLoop, hkind, hrec, bind, Except.bind] at h
        rw [Except.ok.injEq, Prod.mk.injEq] at h
        obtain ⟨hes, hds⟩ := h
        subst hes
        subst hds
        obtain ⟨ihes, ihlen, ihk⟩ := ih idx es2 ds2 hrec
        have hfil : (e :: rest).filter (fun e => e.kind == EdgeKind.line) =
            rest.filter (fun e => e.kind == EdgeKind.line) :=
          List.filter_cons_of_neg (by simp [hkind])
        exact ⟨by simp [ihes], by simp [hfil, ihlen],
          fun k hk => by rw [hfil]; exact ihk k hk⟩
    | other =>
      cases hrec : edgeLoop ext viewPlane filletRadius strokeWidth color
          fontFamily fontSize precision straight_edges rest idx with
      | error er =>
        simp [edgeLoop, hkind, hrec, bind, Except.bind] at h
      | ok pair =>
        obtain ⟨es2, ds2⟩ := pair
        simp only [edgeLoop, hkind, hrec, bind, Except.bind] at h
        rw [Except.ok.injEq, Prod.mk.injEq] at h
        obtain ⟨hes, hds⟩ := h
        subst hes
        subst hds
        obtain ⟨ihes, ihlen, ihk⟩ := ih idx es2 ds2 hrec
        have hfil : (e :: rest).filter (fun e => e.kind == EdgeKind.line) =
            rest.filter (fun e => e.kind == EdgeKind.line) :=
          List.filter_cons_of_neg (by simp [hkind])
        exact ⟨by simp [ihes], by simp [hfil, ihlen],
          fun k hk => by rw [hfil]; exact ihk k hk⟩

/-- The text content of an element survives setting an attribute. -/
lemma textOf_setAttr (e : SVGElem) (k : String) (v : AttrVal) :
    (e.setAttr k v).textOf = e.textOf := by
  cases e
  rfl

/-- C5: in the edge loop of getRebarShapeSVG, dimension labels are
emitted exactly for straight edges (one per straight edge of the filleted
wire, none for curved edges), the true length cursor advances only on
straight edges so that the k-th label reads the unfilleted edge at
position idx + k, the emitted label text is the true edge length rounded
to the configured precision with trailing zeros and a dangling period
stripped, and that label parses back to exactly the rounded value. -/
theorem dimension_labels_lockstep (ext : Externals)
    (viewPlane : Vec3 → Point2) (filletRadius strokeWidth : ℚ)
    (color fontFamily : String) (fontSize : ℚ) (precision : ℕ)
    (straight_edges edges : List Edge) (idx : ℕ) (es ds : List SVGElem)
    (h : edgeLoop ext viewPlane filletRadius strokeWidth color fontFamily
      fontSize precision straight_edges edges idx = Except.ok (es, ds)) :
    ds.length = (edges.filter (fun e => e.kind == EdgeKind.line)).length ∧
    ∀ k, (hk : k < ds.length) →
      ∃ e se,
        (edges.filter (fun e => e.kind == EdgeKind.line)).get? k = some e ∧
        straight_edges.get? (idx + k) = some se ∧
        (ds.get ⟨k, hk⟩).textOf =
          String.mk (edgeLengthLabelChars se.length precision) ∧
        parseDecChars (edgeLengthLabelChars se.length precision) =
          some (pyRoundPrec se.length precision) ∧
        ('.' ∈ edgeLengthLabelChars se.length precision →
          (edgeLengthLabelChars se.length precision).getLast? ≠ some '0' ∧
          (edgeLengthLabelChars se.length precision).getLast? ≠ some '.') := by
  obtain ⟨-, hlen, hks⟩ := edgeLoop_ok_spec ext viewPlane filletRadius
    strokeWidth color fontFamily fontSize precision straight_edges edges idx
    es ds h
  refine ⟨hlen, fun k hkk => ?_⟩
  obtain ⟨e, se, hge, hgs, hdim⟩ := hks k hkk
  obtain ⟨hp, hcond⟩ := edgeLengthLabel_spec se.length precision
  refine ⟨e, se, hge, hgs, ?_, hp, hcond⟩
  rw [hdim, dimSVG, textOf_setAttr]
  rfl

/-- A one edge wire whose straight edge has true length 33.333. -/
def edgesLabelDemo : List Edge :=
  [⟨EdgeKind.line, ⟨0, 0, 0⟩, ⟨10, 0, 0⟩, 33333/1000⟩]

/-- The edge loop output on edgesLabelDemo. -/
def edgeLoopDemo : List SVGElem × List SVGElem :=
  ((edgeLoop extXY projXY 0 (7/20) "black" "DejaVu Sans" 2 2 edgesLabelDemo
    edgesLabelDemo 0).toOption).getD ([], [])

/-- C5 witness: on the concrete one edge wire the loop succeeds and
produces exactly one dimension label. -/
theorem dimension_labels_lockstep_witness :
    edgeLoopDemo.2.length =
      (edgesLabelDemo.filter (fun e => e.kind == EdgeKind.line)).length := by
  have h : edgeLoop extXY projXY 0 (7/20) "black" "DejaVu Sans" 2 2
      edgesLabelDemo edgesLabelDemo 0 =
      Except.ok (edgeLoopDemo.1, edgeLoopDemo.2) := by
    norm_num [edgeLoopDemo, Except.toOption, Option.getD, edgeLoop,
      edgesLabelDemo, renderEdgeSVG, dimSVG, getPointSVG, getLineSVG,
      getSVGTextElement, SVGElem.setAttr, projXY, extXY, pyRound,
      edgeLengthLabelChars, pyStripChars, pyFloatChars, pyFloatCharsNat,
      normDec, natDecChars, natDigits, digitsLE, fracChars, dchar, rstripC,
      Except.bind, bind, pure, Except.pure, List.filter, List.find?,
      Option.or, Option.map, Option.bind, List.head?]
  exact (dimension_labels_lockstep extXY projXY 0 (7/20) "black"
    "DejaVu Sans" 2 2 edgesLabelDemo edgesLabelDemo 0 edgeLoopDemo.1
    edgeLoopDemo.2 h).1
